import Mathlib

/-!
Verification of the du2go parallel disk-usage analyzer.

This file shallowly embeds the data model and algorithms of the repository
(`du.go`, `users.go`, `util.go`) in Lean 4 and proves or refutes the frozen
claims about them.

Modelling conventions:
* Go `uint64` arithmetic is `Nat` with every addition reduced modulo `2^64`
  (`addU64`); `int64` values are `Int` (their operations in this program are
  comparisons, `maxInt64`, `minInt64`, which never overflow).
* The `google/btree` ordered set `BTreeG[PathSize]` with the comparator
  `pathSizeLess` (which compares sizes only) is modelled as a list that is
  kept sorted by ascending size: `ReplaceOrInsert` walks to the first
  element not below the new item and replaces it when neither compares
  less, `DeleteMin` drops the head, `Len` is the length.
* `filepath.Join` is modelled as joining with a `/` separator (path
  cleaning is irrelevant to every claim).
* Mutex-protected operations are modelled as atomic state transitions; a
  concurrent scan is modelled as the deterministic per-node tree results
  plus a fold of the collector offers over an arbitrary linearization
  (permutation) of the offer sequence.

The repository sources concatenate two revisions of `du.go`; both revisions
of the largest-file collector are embedded (`setMaxFile` from du.go:80-94,
`setMaxFileV2` from du.go:449-464) because the claims cite both.
-/

/-! ## Machine-integer helpers -/

/-- Modulus of Go `uint64` arithmetic. -/
def U64MOD : Nat := 18446744073709551616

/-- Go `uint64` addition (wrap-around). -/
def addU64 (a b : Nat) : Nat := (a + b) % U64MOD

/-- Go conversion `uint64(x)` of an `int64` value. -/
def u64ofInt (i : Int) : Nat := (i % (U64MOD : Int)).toNat

/-- Largest `int64` value, `math.MaxInt64`. -/
def maxI64 : Int := 9223372036854775807

/-- Smallest `int64` value, `math.MinInt64`. -/
def minI64 : Int := -9223372036854775808

/-- util.go `maxInt64` at its two-argument uses: starts from the first
argument and replaces it whenever a later one is greater. -/
def maxInt64 (a b : Int) : Int := if a < b then b else a

/-- util.go `minInt64` at its two-argument uses. -/
def minInt64 (a b : Int) : Int := if b < a then b else a

theorem addU64_lt (a b : Nat) : addU64 a b < U64MOD := by
  have : 0 < U64MOD := by decide
  exact Nat.mod_lt _ this

theorem addU64_assoc (a b c : Nat) :
    addU64 (addU64 a b) c = addU64 a (addU64 b c) := by
  unfold addU64 U64MOD
  omega

theorem addU64_right_comm (a b c : Nat) :
    addU64 (addU64 a b) c = addU64 (addU64 a c) b := by
  unfold addU64 U64MOD
  omega

/-! ## PathSize and the ordered-tree model (du.go:53-60, btree) -/

/-- du.go `PathSize`: a size/path pair. -/
structure PathSize where
  size : Int
  path : String
deriving DecidableEq, Repr

/-- du.go:58-60 `pathSizeLess`: ordering by size only. -/
def pathSizeLess (a b : PathSize) : Bool := a.size < b.size

/-- `btree.ReplaceOrInsert` on the sorted-list model of
`BTreeG[PathSize]` with comparator `pathSizeLess`: insert before the first
strictly greater element, replacing an element with equal size. -/
def replaceOrInsert (p : PathSize) : List PathSize → List PathSize
  | [] => [p]
  | q :: rest =>
    if p.size < q.size then p :: q :: rest
    else if q.size < p.size then q :: replaceOrInsert p rest
    else p :: rest

/-- Invariant of the btree model: sizes strictly increase along the list
(an ordered set with at most one element per size). -/
def StrictBySize (t : List PathSize) : Prop :=
  List.Chain' (fun p q => p.size < q.size) t

instance : DecidablePred StrictBySize := fun t =>
  inferInstanceAs (Decidable (List.Chain' _ t))

/-! ## The largest-file collector (du.go:62-94 and du.go:431-464) -/

/-- du.go:62-67 `maxGlobalFile` (the mutex is modelled by treating each
operation as atomic). -/
structure MaxGlobalFile where
  limits : Nat
  minFile : Int
  mapMax : List PathSize
deriving Repr, DecidableEq

/-- du.go:69-76 `NewMaxGlobalFile`. -/
def NewMaxGlobalFile (limit : Nat) : MaxGlobalFile :=
  { limits := limit, minFile := 0, mapMax := [] }

/-- du.go:80-94 `setMaxFile` (current revision): under the lock, load the
watermark; if `size > currMin`, insert, evict the minimum when the tree
exceeds the limit, and store the watermark only when `currMin > size`
(note: that condition is unreachable inside `size > currMin`). -/
def setMaxFile (m : MaxGlobalFile) (size : Int) (path : String) : MaxGlobalFile :=
  let currMin := m.minFile
  if currMin < size then
    let t1 := replaceOrInsert { size := size, path := path } m.mapMax
    let t2 := if m.limits < t1.length then t1.tail else t1
    let mf := if size < currMin then size else m.minFile
    { limits := m.limits, minFile := mf, mapMax := t2 }
  else m

/-- du.go:449-464 `setMaxFile` (older revision): double-checked watermark;
on eviction the watermark is set to the inserted `size`. Sequentially the
two checks collapse but both are kept. -/
def setMaxFileV2 (m : MaxGlobalFile) (size : Int) (path : String) : MaxGlobalFile :=
  if m.minFile < size then
    if m.minFile < size then
      let t1 := replaceOrInsert { size := size, path := path } m.mapMax
      if m.limits < t1.length then
        { limits := m.limits, minFile := size, mapMax := t1.tail }
      else
        { limits := m.limits, minFile := m.minFile, mapMax := t1 }
    else m
  else m

/-- du.go:207-212 `trySetNewMaxPath`: insert and trim to the limit (used by
the four per-directory summary trees). -/
def trySetNewMaxPath (tree : List PathSize) (size : Int) (path : String)
    (limit : Nat) : List PathSize :=
  let t1 := replaceOrInsert { size := size, path := path } tree
  if limit < t1.length then t1.tail else t1

/-- Fold a sequence of offers through the current-revision collector. -/
def offerFold (m : MaxGlobalFile) (l : List PathSize) : MaxGlobalFile :=
  l.foldl (fun s p => setMaxFile s p.size p.path) m

/-- Fold a sequence of offers through the older-revision collector. -/
def offerFoldV2 (m : MaxGlobalFile) (l : List PathSize) : MaxGlobalFile :=
  l.foldl (fun s p => setMaxFileV2 s p.size p.path) m

/-! ### Basic collector lemmas -/

theorem replaceOrInsert_nil (p : PathSize) : replaceOrInsert p [] = [p] := rfl

theorem replaceOrInsert_cons (p q : PathSize) (rest : List PathSize) :
    replaceOrInsert p (q :: rest) =
      if p.size < q.size then p :: q :: rest
      else if q.size < p.size then q :: replaceOrInsert p rest
      else p :: rest := rfl

/-- Inserting an element whose size is greater than the head's walks past
the head (the defining equation, extracted). -/
theorem replaceOrInsert_cons_of_lt {q p : PathSize} (h : q.size < p.size)
    (rest : List PathSize) :
    replaceOrInsert p (q :: rest) = q :: replaceOrInsert p rest := by
  rw [replaceOrInsert_cons, if_neg (by omega), if_pos h]

/-- Inserting an element smaller than the head prepends it. -/
theorem replaceOrInsert_cons_of_gt {q p : PathSize} (h : p.size < q.size)
    (rest : List PathSize) :
    replaceOrInsert p (q :: rest) = p :: q :: rest := by
  rw [replaceOrInsert_cons, if_pos h]

theorem replaceOrInsert_cons_of_eq {q p : PathSize} (h : p.size = q.size)
    (rest : List PathSize) :
    replaceOrInsert p (q :: rest) = p :: rest := by
  rw [replaceOrInsert_cons, if_neg (by omega), if_neg (by omega)]

theorem replaceOrInsert_length_le (p : PathSize) (t : List PathSize) :
    (replaceOrInsert p t).length ≤ t.length + 1 := by
  induction t with
  | nil => simp [replaceOrInsert_nil]
  | cons q rest ih =>
    rw [replaceOrInsert_cons]
    split
    · simp
    · split
      · simpa using Nat.succ_le_succ ih
      · simp

theorem length_le_replaceOrInsert (p : PathSize) (t : List PathSize) :
    t.length ≤ (replaceOrInsert p t).length := by
  induction t with
  | nil => simp [replaceOrInsert_nil]
  | cons q rest ih =>
    rw [replaceOrInsert_cons]
    split
    · simp
    · split
      · simpa using Nat.succ_le_succ ih
      · simp [Nat.le_succ_of_le]

theorem replaceOrInsert_mem {x p : PathSize} {t : List PathSize}
    (h : x ∈ replaceOrInsert p t) : x = p ∨ x ∈ t := by
  induction t with
  | nil => simpa [replaceOrInsert_nil] using h
  | cons q rest ih =>
    rw [replaceOrInsert_cons] at h
    split at h
    · rw [List.mem_cons] at h
      rcases h with h | h
      · exact Or.inl h
      · exact Or.inr h
    · split at h
      · rw [List.mem_cons] at h
        rcases h with h | h
        · exact Or.inr (by simp [h])
        · rcases ih h with h | h
          · exact Or.inl h
          · exact Or.inr (List.mem_cons_of_mem _ h)
      · rw [List.mem_cons] at h
        rcases h with h | h
        · exact Or.inl h
        · exact Or.inr (List.mem_cons_of_mem _ h)

/-- `ReplaceOrInsert` operations at distinct sizes commute, on any list. -/
theorem replaceOrInsert_comm {a b : PathSize} (hab : a.size ≠ b.size) :
    ∀ t : List PathSize,
      replaceOrInsert a (replaceOrInsert b t) =
        replaceOrInsert b (replaceOrInsert a t) := by
  intro t
  induction t with
  | nil =>
    show replaceOrInsert a [b] = replaceOrInsert b [a]
    rcases lt_or_gt_of_ne hab with h | h
    · rw [replaceOrInsert_cons_of_gt h, replaceOrInsert_cons_of_lt h]
      rfl
    · rw [replaceOrInsert_cons_of_lt h, replaceOrInsert_cons_of_gt h]
      rfl
  | cons q rest ih =>
    rcases lt_trichotomy a.size q.size with ha | ha | ha
    · -- a goes in front of q
      rcases lt_trichotomy b.size q.size with hb | hb | hb
      · -- both in front of q; order decided by a vs b
        rw [replaceOrInsert_cons_of_gt hb, replaceOrInsert_cons_of_gt ha]
        rcases lt_or_gt_of_ne hab with h | h
        · rw [replaceOrInsert_cons_of_gt h, replaceOrInsert_cons_of_lt h,
            replaceOrInsert_cons_of_gt hb]
        · rw [replaceOrInsert_cons_of_lt h, replaceOrInsert_cons_of_gt h,
            replaceOrInsert_cons_of_gt ha]
      · -- b replaces q, a goes in front
        rw [replaceOrInsert_cons_of_eq hb, replaceOrInsert_cons_of_gt ha,
          replaceOrInsert_cons_of_gt (show a.size < b.size by omega),
          replaceOrInsert_cons_of_lt (show a.size < b.size by omega),
          replaceOrInsert_cons_of_eq hb]
      · -- b goes past q, a in front of q
        rw [replaceOrInsert_cons_of_lt hb, replaceOrInsert_cons_of_gt ha,
          replaceOrInsert_cons_of_gt ha,
          replaceOrInsert_cons_of_lt (show a.size < b.size by omega),
          replaceOrInsert_cons_of_lt hb]
    · -- a replaces q
      rcases lt_trichotomy b.size q.size with hb | hb | hb
      · rw [replaceOrInsert_cons_of_gt hb, replaceOrInsert_cons_of_eq ha,
          replaceOrInsert_cons_of_lt (show b.size < a.size by omega),
          replaceOrInsert_cons_of_eq ha,
          replaceOrInsert_cons_of_gt (show b.size < a.size by omega)]
      · exact absurd (ha.trans hb.symm) hab
      · rw [replaceOrInsert_cons_of_lt hb, replaceOrInsert_cons_of_eq ha,
          replaceOrInsert_cons_of_eq ha,
          replaceOrInsert_cons_of_lt (show a.size < b.size by omega)]
    · -- a goes past q
      rcases lt_trichotomy b.size q.size with hb | hb | hb
      · rw [replaceOrInsert_cons_of_gt hb, replaceOrInsert_cons_of_lt ha,
          replaceOrInsert_cons_of_lt (show b.size < a.size by omega),
          replaceOrInsert_cons_of_gt hb,
          replaceOrInsert_cons_of_lt ha]
      · rw [replaceOrInsert_cons_of_eq hb, replaceOrInsert_cons_of_lt ha,
          replaceOrInsert_cons_of_lt (show b.size < a.size by omega),
          replaceOrInsert_cons_of_eq hb]
      · rw [replaceOrInsert_cons_of_lt hb, replaceOrInsert_cons_of_lt ha,
          replaceOrInsert_cons_of_lt ha, replaceOrInsert_cons_of_lt hb, ih]

/-! ### Sortedness of the btree model -/

theorem replaceOrInsert_head {p : PathSize} {t : List PathSize} {y : PathSize}
    (h : (replaceOrInsert p t).head? = some y) : y = p ∨ t.head? = some y := by
  cases t with
  | nil => simp [replaceOrInsert_nil] at h; exact Or.inl h.symm
  | cons q rest =>
    rw [replaceOrInsert_cons] at h
    split at h
    · simp at h; exact Or.inl h.symm
    · split at h
      · simp at h; exact Or.inr (by simp [h])
      · simp at h; exact Or.inl h.symm

theorem replaceOrInsert_sorted {t : List PathSize} (hs : StrictBySize t)
    (p : PathSize) : StrictBySize (replaceOrInsert p t) := by
  induction t with
  | nil => simp [replaceOrInsert_nil, StrictBySize]
  | cons q rest ih =>
    rw [StrictBySize, replaceOrInsert_cons]
    rcases List.chain'_cons'.mp hs with ⟨hq, hrest⟩
    split
    · exact List.chain'_cons'.mpr ⟨by intro y hy; simp at hy; subst hy; assumption,
        hs⟩
    · split
      · refine List.chain'_cons'.mpr ⟨?_, ih hrest⟩
        intro y hy
        rcases replaceOrInsert_head hy with h | h
        · subst h; assumption
        · exact hq y h
      · refine List.chain'_cons'.mpr ⟨?_, hrest⟩
        intro y hy
        have := hq y hy
        simp only at this ⊢
        omega

theorem StrictBySize.tail {t : List PathSize} (hs : StrictBySize t) :
    StrictBySize t.tail := List.Chain'.tail hs

/-! ### Trim-after-insert and its commutation -/

/-- The trim step shared by `setMaxFile` and `trySetNewMaxPath`: evict the
minimum when the tree exceeds the limit. -/
def trimTo (limit : Nat) (l : List PathSize) : List PathSize :=
  if limit < l.length then l.tail else l

/-- Dropping down to `limit` elements (used only in proofs). -/
def dropOver (limit : Nat) (l : List PathSize) : List PathSize :=
  l.drop (l.length - limit)

theorem trimTo_eq_dropOver {limit : Nat} {l : List PathSize}
    (h : l.length ≤ limit + 1) : trimTo limit l = dropOver limit l := by
  unfold trimTo dropOver
  split
  · have : l.length - limit = 1 := by omega
    rw [this, List.drop_one]
  · have : l.length - limit = 0 := by omega
    rw [this, List.drop_zero]

theorem dropOver_cons {limit : Nat} {x : List PathSize} (h : PathSize)
    (hx : limit ≤ x.length) : dropOver limit (h :: x) = dropOver limit x := by
  unfold dropOver
  have : (h :: x).length - limit = (x.length - limit) + 1 := by
    simp only [List.length_cons]; omega
  rw [this, List.drop_succ_cons]

theorem replaceOrInsert_all_lt {p : PathSize} {t : List PathSize}
    (h : ∀ y ∈ t.head?, p.size < y.size) : replaceOrInsert p t = p :: t := by
  cases t with
  | nil => rfl
  | cons q rest => exact replaceOrInsert_cons_of_gt (h q rfl) rest

/-- Core commutation step: inserting into the already-trimmed tree and
trimming again reaches the same state as trimming the doubly-inserted
tree down to the limit. -/
theorem trim_insert_eq_dropOver {limit : Nat} {t : List PathSize}
    (hs : StrictBySize t) (hl : t.length ≤ limit) (a b : PathSize) :
    trimTo limit (replaceOrInsert a (trimTo limit (replaceOrInsert b t))) =
      dropOver limit (replaceOrInsert a (replaceOrInsert b t)) := by
  have hub : (replaceOrInsert b t).length ≤ t.length + 1 := replaceOrInsert_length_le b t
  have hlb : t.length ≤ (replaceOrInsert b t).length := length_le_replaceOrInsert b t
  have hu : StrictBySize (replaceOrInsert b t) := replaceOrInsert_sorted hs b
  rcases Nat.lt_or_ge limit (replaceOrInsert b t).length with h2 | h1
  · -- the first insert overflowed: the tree held exactly `limit` elements
    have h2' : (replaceOrInsert b t).length = limit + 1 := by omega
    have hne : replaceOrInsert b t ≠ [] := by
      intro h
      rw [h] at h2'
      simp at h2'
    obtain ⟨hd, u, hu'⟩ := List.exists_cons_of_ne_nil hne
    rw [hu']
    rw [hu'] at h2' hu
    have hulen : u.length = limit := by
      simp only [List.length_cons] at h2'
      omega
    have hd_head : ∀ y ∈ u.head?, hd.size < y.size := (List.chain'_cons'.mp hu).1
    have htrim : trimTo limit (hd :: u) = u := by
      unfold trimTo
      rw [if_pos (by simp only [List.length_cons, hulen]; omega)]
      rfl
    rw [htrim]
    rcases lt_trichotomy a.size hd.size with hcmp | hcmp | hcmp
    · -- a sits below the evicted minimum
      have hins : replaceOrInsert a u = a :: u := by
        apply replaceOrInsert_all_lt
        intro y hy
        have := hd_head y hy
        omega
      rw [replaceOrInsert_cons_of_gt hcmp, hins]
      rw [trimTo_eq_dropOver (by simp only [List.length_cons, hulen]; omega)]
      rw [dropOver_cons a (show limit ≤ u.length by omega),
        dropOver_cons a (show limit ≤ (hd :: u).length by
          simp only [List.length_cons, hulen]; omega),
        dropOver_cons hd (show limit ≤ u.length by omega)]
    · -- a replaces the evicted minimum
      have hins : replaceOrInsert a u = a :: u := by
        apply replaceOrInsert_all_lt
        intro y hy
        have := hd_head y hy
        omega
      rw [replaceOrInsert_cons_of_eq hcmp, hins]
      rw [trimTo_eq_dropOver (by simp only [List.length_cons, hulen]; omega)]
    · -- a goes past the minimum
      rw [replaceOrInsert_cons_of_lt hcmp]
      have hx : limit ≤ (replaceOrInsert a u).length := by
        have := length_le_replaceOrInsert a u
        omega
      rw [dropOver_cons hd hx]
      rw [trimTo_eq_dropOver (by
        have := replaceOrInsert_length_le a u
        omega)]
  · -- no overflow on the first insert
    have htrim : trimTo limit (replaceOrInsert b t) = replaceOrInsert b t := by
      unfold trimTo
      rw [if_neg (by omega)]
    rw [htrim]
    exact trimTo_eq_dropOver (by
      have := replaceOrInsert_length_le a (replaceOrInsert b t)
      omega)

/-! ### setMaxFile state lemmas -/

theorem setMaxFile_of_le {m : MaxGlobalFile} {s : Int} {p : String}
    (h : ¬ m.minFile < s) : setMaxFile m s p = m := by
  unfold setMaxFile
  rw [if_neg h]

theorem setMaxFile_of_gt {m : MaxGlobalFile} {s : Int} {p : String}
    (h : m.minFile < s) :
    setMaxFile m s p =
      { limits := m.limits, minFile := m.minFile,
        mapMax := trimTo m.limits (replaceOrInsert ⟨s, p⟩ m.mapMax) } := by
  unfold setMaxFile trimTo
  rw [if_pos h, if_neg (by omega)]

/-- The current-revision `setMaxFile` never changes the watermark: its
update is guarded by `currMin > size` inside `size > currMin`. -/
theorem setMaxFile_minFile (m : MaxGlobalFile) (s : Int) (p : String) :
    (setMaxFile m s p).minFile = m.minFile := by
  by_cases h : m.minFile < s
  · rw [setMaxFile_of_gt h]
  · rw [setMaxFile_of_le h]

theorem setMaxFile_limits (m : MaxGlobalFile) (s : Int) (p : String) :
    (setMaxFile m s p).limits = m.limits := by
  by_cases h : m.minFile < s
  · rw [setMaxFile_of_gt h]
  · rw [setMaxFile_of_le h]

/-- Collector data invariant: sorted tree of at most `limits` elements. -/
def CollectorInv (m : MaxGlobalFile) : Prop :=
  StrictBySize m.mapMax ∧ m.mapMax.length ≤ m.limits

theorem trimTo_length {limit : Nat} (l : List PathSize)
    (h : l.length ≤ limit + 1) : (trimTo limit l).length ≤ limit := by
  unfold trimTo
  split
  · simp [List.length_tail]; omega
  · omega

theorem trimTo_sorted {limit : Nat} {l : List PathSize} (h : StrictBySize l) :
    StrictBySize (trimTo limit l) := by
  unfold trimTo
  split
  · exact h.tail
  · exact h

theorem setMaxFile_inv {m : MaxGlobalFile} (hm : CollectorInv m)
    (s : Int) (p : String) : CollectorInv (setMaxFile m s p) := by
  by_cases h : m.minFile < s
  · rw [setMaxFile_of_gt h]
    refine ⟨trimTo_sorted (replaceOrInsert_sorted hm.1 _), ?_⟩
    exact trimTo_length _ (by
      have := replaceOrInsert_length_le ⟨s, p⟩ m.mapMax
      have := hm.2
      omega)
  · rw [setMaxFile_of_le h]
    exact hm

/-- Two offers with distinct sizes commute on any invariant-satisfying
collector state. -/
theorem setMaxFile_comm {m : MaxGlobalFile} (hm : CollectorInv m)
    {a b : PathSize} (hab : a.size ≠ b.size) :
    setMaxFile (setMaxFile m a.size a.path) b.size b.path =
      setMaxFile (setMaxFile m b.size b.path) a.size a.path := by
  by_cases ha : m.minFile < a.size
  · by_cases hb : m.minFile < b.size
    · -- both offers pass the watermark check
      have hA : (setMaxFile m a.size a.path).minFile < b.size := by
        rw [setMaxFile_minFile]
        exact hb
      have hB : (setMaxFile m b.size b.path).minFile < a.size := by
        rw [setMaxFile_minFile]
        exact ha
      have e1 : setMaxFile (setMaxFile m a.size a.path) b.size b.path =
          ⟨m.limits, m.minFile,
            trimTo m.limits (replaceOrInsert ⟨b.size, b.path⟩
              (trimTo m.limits (replaceOrInsert ⟨a.size, a.path⟩ m.mapMax)))⟩ := by
        rw [setMaxFile_of_gt hA, setMaxFile_of_gt ha]
      have e2 : setMaxFile (setMaxFile m b.size b.path) a.size a.path =
          ⟨m.limits, m.minFile,
            trimTo m.limits (replaceOrInsert ⟨a.size, a.path⟩
              (trimTo m.limits (replaceOrInsert ⟨b.size, b.path⟩ m.mapMax)))⟩ := by
        rw [setMaxFile_of_gt hB, setMaxFile_of_gt hb]
      rw [e1, e2]
      congr 1
      rw [trim_insert_eq_dropOver hm.1 hm.2 ⟨b.size, b.path⟩ ⟨a.size, a.path⟩,
        trim_insert_eq_dropOver hm.1 hm.2 ⟨a.size, a.path⟩ ⟨b.size, b.path⟩,
        replaceOrInsert_comm (show (⟨b.size, b.path⟩ : PathSize).size ≠
          (⟨a.size, a.path⟩ : PathSize).size by simpa using hab.symm)]
    · -- only a passes
      have h1 : setMaxFile m b.size b.path = m := setMaxFile_of_le hb
      have h2 : setMaxFile (setMaxFile m a.size a.path) b.size b.path =
          setMaxFile m a.size a.path := by
        apply setMaxFile_of_le
        rw [setMaxFile_minFile]
        exact hb
      rw [h1, h2]
  · by_cases hb : m.minFile < b.size
    · -- only b passes
      have h1 : setMaxFile m a.size a.path = m := setMaxFile_of_le ha
      have h2 : setMaxFile (setMaxFile m b.size b.path) a.size a.path =
          setMaxFile m b.size b.path := by
        apply setMaxFile_of_le
        rw [setMaxFile_minFile]
        exact ha
      rw [h1, h2]
    · -- neither passes
      rw [setMaxFile_of_le ha, setMaxFile_of_le hb, setMaxFile_of_le ha]

/-- Folding the offers of any permutation of a distinct-size offer list
produces the same collector state. -/
theorem offerFold_perm {σ τ : List PathSize} (hperm : σ.Perm τ) :
    ∀ m : MaxGlobalFile, CollectorInv m →
      σ.Pairwise (fun p q => p.size ≠ q.size) →
      offerFold m σ = offerFold m τ := by
  induction hperm with
  | nil => intro m _ _; rfl
  | cons x p ih =>
    intro m hm hp
    simp only [offerFold, List.foldl_cons] at *
    exact ih _ (setMaxFile_inv hm _ _) hp.of_cons
  | swap x y l =>
    intro m hm hp
    simp only [offerFold, List.foldl_cons]
    have hxy : y.size ≠ x.size := (List.pairwise_cons.mp hp).1 x (by simp)
    rw [setMaxFile_comm hm hxy]
  | trans p1 p2 ih1 ih2 =>
    intro m hm hp
    rw [ih1 m hm hp, ih2 m hm (p1.pairwise hp (fun h => Ne.symm h))]

/-! ### Watermark and distinctness invariants of the collector -/

theorem offerFold_cons (m : MaxGlobalFile) (p : PathSize) (l : List PathSize) :
    offerFold m (p :: l) = offerFold (setMaxFile m p.size p.path) l := rfl

theorem offerFold_minFile (l : List PathSize) : ∀ m : MaxGlobalFile,
    (offerFold m l).minFile = m.minFile := by
  induction l with
  | nil => intro m; rfl
  | cons p rest ih =>
    intro m
    rw [offerFold_cons, ih, setMaxFile_minFile]

theorem offerFold_limits (l : List PathSize) : ∀ m : MaxGlobalFile,
    (offerFold m l).limits = m.limits := by
  induction l with
  | nil => intro m; rfl
  | cons p rest ih =>
    intro m
    rw [offerFold_cons, ih, setMaxFile_limits]

theorem offerFold_inv {l : List PathSize} : ∀ {m : MaxGlobalFile},
    CollectorInv m → CollectorInv (offerFold m l) := by
  induction l with
  | nil => intro m hm; exact hm
  | cons p rest ih =>
    intro m hm
    rw [offerFold_cons]
    exact ih (setMaxFile_inv hm _ _)

theorem trimTo_mem {limit : Nat} {l : List PathSize} {x : PathSize}
    (h : x ∈ trimTo limit l) : x ∈ l := by
  unfold trimTo at h
  split at h
  · cases l with
    | nil => simp at h
    | cons a as => exact List.mem_cons_of_mem a h
  · exact h

/-- All elements of the collector tree lie strictly above the watermark. -/
theorem setMaxFile_above_watermark {m : MaxGlobalFile}
    (hm : ∀ p ∈ m.mapMax, m.minFile < p.size) (s : Int) (pa : String) :
    ∀ p ∈ (setMaxFile m s pa).mapMax, (setMaxFile m s pa).minFile < p.size := by
  by_cases h : m.minFile < s
  · rw [setMaxFile_of_gt h]
    intro p hp
    simp only at hp ⊢
    rcases replaceOrInsert_mem (trimTo_mem hp) with h1 | h1
    · subst h1
      exact h
    · exact hm p h1
  · rw [setMaxFile_of_le h]
    exact hm

theorem offerFold_above_watermark {l : List PathSize} : ∀ {m : MaxGlobalFile},
    (∀ p ∈ m.mapMax, m.minFile < p.size) →
    ∀ p ∈ (offerFold m l).mapMax, (offerFold m l).minFile < p.size := by
  induction l with
  | nil => intro m hm; exact hm
  | cons q rest ih =>
    intro m hm
    rw [offerFold_cons]
    exact ih (setMaxFile_above_watermark hm _ _)

/-- Strictly sorted lists carry the head strictly below the whole tail. -/
theorem StrictBySize.head_lt : ∀ {q : PathSize} {rest : List PathSize},
    StrictBySize (q :: rest) → ∀ y ∈ rest, q.size < y.size := by
  intro q rest
  induction rest generalizing q with
  | nil => intro _ y hy; simp at hy
  | cons r rs ih =>
    intro hs y hy
    rcases List.chain'_cons.mp hs with ⟨hqr, hrs⟩
    rcases List.mem_cons.mp hy with h | h
    · subst h; exact hqr
    · exact lt_trans hqr (ih hrs y h)

/-- A strictly sorted tree holds at most one element of any given size. -/
theorem StrictBySize.countP_le_one {t : List PathSize} (hs : StrictBySize t)
    (z : Int) : t.countP (fun q => q.size == z) ≤ 1 := by
  induction t with
  | nil => simp
  | cons q rest ih =>
    rw [List.countP_cons]
    by_cases h : q.size = z
    · have hzero : rest.countP (fun q => q.size == z) = 0 := by
        apply List.countP_eq_zero.mpr
        intro y hy
        have := hs.head_lt y hy
        simp only [beq_iff_eq]
        omega
      simp [hzero, h]
    · simpa [beq_iff_eq, h] using ih hs.tail

/-- walkTreeSummary-style fold of offers through `trySetNewMaxPath`
(du.go:219-227 applies it once per directory to each summary tree). -/
def summaryFold (limit : Nat) (t : List PathSize) (ops : List PathSize) :
    List PathSize :=
  ops.foldl (fun t o => trySetNewMaxPath t o.size o.path limit) t

theorem trySetNewMaxPath_eq_trim (t : List PathSize) (s : Int) (p : String)
    (limit : Nat) :
    trySetNewMaxPath t s p limit = trimTo limit (replaceOrInsert ⟨s, p⟩ t) := rfl

theorem summaryFold_sorted {ops : List PathSize} {limit : Nat} :
    ∀ {t : List PathSize}, StrictBySize t →
      StrictBySize (summaryFold limit t ops) := by
  induction ops with
  | nil => intro t ht; exact ht
  | cons o rest ih =>
    intro t ht
    show StrictBySize (summaryFold limit (trySetNewMaxPath t o.size o.path limit) rest)
    apply ih
    rw [trySetNewMaxPath_eq_trim]
    exact trimTo_sorted (replaceOrInsert_sorted ht _)

theorem summaryFold_replicate_same {limit : Nat} (hK : 0 < limit)
    (r : PathSize) : ∀ n : Nat,
    summaryFold limit [r] (List.replicate n r) = [r] := by
  intro n
  induction n with
  | zero => rfl
  | succ k ih =>
    rw [List.replicate_succ]
    show summaryFold limit (trySetNewMaxPath [r] r.size r.path limit)
      (List.replicate k r) = [r]
    have hstep : trySetNewMaxPath [r] r.size r.path limit = [r] := by
      rw [trySetNewMaxPath_eq_trim]
      have : replaceOrInsert ⟨r.size, r.path⟩ [r] = [⟨r.size, r.path⟩] :=
        replaceOrInsert_cons_of_eq rfl []
      rw [this]
      unfold trimTo
      rw [if_neg (by simp; omega)]
    rw [hstep, ih]

/-! ## The DirNode tree (du.go:21-51) -/

/-- du.go:21-34 `DirInfo` scalar fields; the `children` slice is split off
so the tree below can be a nested inductive. -/
structure DirStats where
  name : String
  imm_size : Nat
  imm_files : Nat
  imm_dirs : Nat
  imm_old_file : Int
  imm_new_file : Int
  rec_size : Nat
  rec_files : Nat
  rec_dirs : Nat
  rec_old_file : Int
  rec_new_file : Int
deriving Repr, DecidableEq

/-- du.go:21-34 `DirInfo`: per-directory statistics plus owned children in
listing order. -/
inductive DirInfo where
  | mk (stats : DirStats) (children : List DirInfo)

def DirInfo.stats : DirInfo → DirStats
  | .mk s _ => s

def DirInfo.children : DirInfo → List DirInfo
  | .mk _ c => c

/-- du.go:36-51 `NewDirInfo`: zero counters and sentinel extrema. -/
def NewDirInfo (name : String) : DirInfo :=
  .mk { name := name, imm_size := 0, imm_files := 0, imm_dirs := 0,
        imm_old_file := maxI64, imm_new_file := minI64,
        rec_size := 0, rec_files := 0, rec_dirs := 0,
        rec_old_file := maxI64, rec_new_file := minI64 } []

/-- Field update on the node being scanned (Go mutates in place). -/
def DirInfo.withStats : DirInfo → (DirStats → DirStats) → DirInfo
  | .mk s c, f => .mk (f s) c

/-- `dir.children = append(dir.children, subdir)` (du.go:137). -/
def DirInfo.pushChild : DirInfo → DirInfo → DirInfo
  | .mk s c, child => .mk s (c ++ [child])

/-- Reachability of a node inside a DirInfo tree (the node itself or any
descendant through `children`). -/
inductive Subnode : DirInfo → DirInfo → Prop where
  | refl (d : DirInfo) : Subnode d d
  | step {d c n : DirInfo} (hc : c ∈ d.children) (h : Subnode c n) : Subnode d n

/-- Structural induction over the nested `DirInfo` tree. -/
theorem DirInfo.inductionOn (P : DirInfo → Prop)
    (h : ∀ (s : DirStats) (kids : List DirInfo), (∀ c ∈ kids, P c) →
      P (DirInfo.mk s kids)) (d : DirInfo) : P d := by
  have aux : ∀ n : Nat, ∀ d : DirInfo, sizeOf d ≤ n → P d := by
    intro n
    induction n with
    | zero =>
      intro d hd
      cases d with
      | mk s kids =>
        rw [DirInfo.mk.sizeOf_spec] at hd
        omega
    | succ k ih =>
      intro d hd
      cases d with
      | mk s kids =>
        apply h
        intro c hc
        apply ih
        have h1 := List.sizeOf_lt_of_mem hc
        rw [DirInfo.mk.sizeOf_spec] at hd
        have h2 : 0 < sizeOf s := by
          cases s
          rw [DirStats.mk.sizeOf_spec]
          omega
        omega
  exact aux (sizeOf d) d le_rfl

/-! ## Filesystem model and the traversal engine (du.go:96-191) -/

/-- du.go:96-100 `fsFilter`: hard-coded filtered path names. -/
def fsFilter (name : String) : Bool :=
  name == "/proc" || name == "/dev" || name == "/sys"

/-- `filepath.Join(dir.name, file.Name())` modelled as joining with a `/`
separator (path cleaning never matters to the claims). -/
def pjoin (a b : String) : String := a ++ "/" ++ b

/-- Abstract input filesystem: one directory listing in the order
`os.ReadDir` returns it, as a cons-list of entries. `dirE` is a readable
subdirectory carrying its own listing; `badDirE` a subdirectory whose
`os.ReadDir` fails; `fileE` a regular (or irregular) entry whose `Info()`
succeeds with the given size and Unix modification time; `statErrE` a
regular entry whose `Info()` fails; `specialE` any other kind (symlink,
pipe, socket, device). -/
inductive Fs where
  | nilE : Fs
  | dirE (name : String) (sub : Fs) (rest : Fs) : Fs
  | badDirE (name : String) (rest : Fs) : Fs
  | fileE (name : String) (size : Int) (modtime : Int) (rest : Fs) : Fs
  | statErrE (name : String) (rest : Fs) : Fs
  | specialE (name : String) (rest : Fs) : Fs
deriving Repr, DecidableEq

/-- Process-wide atomic counters (util.go:134-137, du.go error counters)
plus the global collector `maxFiles` (du.go:78). -/
structure Globals where
  totalSize : Nat
  countFiles : Nat
  countDirs : Nat
  filestatErrors : Nat
  dirListErrors : Nat
  filterDirs : Nat
  notDirOrFile : Nat
  maxFiles : MaxGlobalFile
deriving Repr, DecidableEq

/-- Globals at program start; `maxFiles = NewMaxGlobalFile(*summaryLimit)`
(du.go:288). -/
def initGlobals (summaryLimit : Nat) : Globals :=
  { totalSize := 0, countFiles := 0, countDirs := 0, filestatErrors := 0,
    dirListErrors := 0, filterDirs := 0, notDirOrFile := 0,
    maxFiles := NewMaxGlobalFile summaryLimit }

/-- The walkGo per-entry loop (du.go:130-189) over the listing `l` of the
directory being scanned: `parent` is that directory's path, `depth` its
depth, `d` the DirNode being populated, `g` the global counters, and
`newest`/`oldest` the loop-local modtime extrema (du.go:130-131). A child
directory is appended and scanned in place; whether du.go:144-149 spawns a
goroutine or recurses synchronously, the same per-node computation runs
(`walkEntries_dirE` relates this inlined child scan to `walkDir`). -/
def walkEntries : Fs → String → Nat → DirInfo → Globals → Int → Int →
    DirInfo × Globals
  | .nilE, _, _, d, g, _, _ => (d, g)
  | .dirE n sub rest, parent, depth, d, g, newest, oldest =>
    let cleanPath := pjoin parent n
    let g1 := { g with countDirs := addU64 g.countDirs 1 }
    let d1 := d.withStats fun s =>
      { s with imm_dirs := addU64 s.imm_dirs 1, rec_dirs := addU64 s.rec_dirs 1 }
    let cg :=
      if depth + 1 ≤ 1 ∧ fsFilter cleanPath = true then
        (NewDirInfo cleanPath, { g1 with filterDirs := addU64 g1.filterDirs 1 })
      else
        walkEntries sub cleanPath (depth + 1) (NewDirInfo cleanPath) g1 minI64 maxI64
    walkEntries rest parent depth (d1.pushChild cg.1) cg.2 newest oldest
  | .badDirE n rest, parent, depth, d, g, newest, oldest =>
    let cleanPath := pjoin parent n
    let g1 := { g with countDirs := addU64 g.countDirs 1 }
    let d1 := d.withStats fun s =>
      { s with imm_dirs := addU64 s.imm_dirs 1, rec_dirs := addU64 s.rec_dirs 1 }
    let cg :=
      if depth + 1 ≤ 1 ∧ fsFilter cleanPath = true then
        (NewDirInfo cleanPath, { g1 with filterDirs := addU64 g1.filterDirs 1 })
      else
        (NewDirInfo cleanPath, { g1 with dirListErrors := addU64 g1.dirListErrors 1 })
    walkEntries rest parent depth (d1.pushChild cg.1) cg.2 newest oldest
  | .fileE n size modtime rest, parent, depth, d, g, newest, oldest =>
    let cleanPath := pjoin parent n
    let newest1 := if newest < modtime then modtime else newest
    let oldest1 := if modtime < oldest then modtime else oldest
    let g1 := { g with countFiles := addU64 g.countFiles 1,
                       totalSize := addU64 g.totalSize (u64ofInt size) }
    let d1 := d.withStats fun s =>
      { s with imm_size := addU64 s.imm_size (u64ofInt size),
               rec_size := addU64 s.rec_size (u64ofInt size),
               imm_files := addU64 s.imm_files 1,
               rec_files := addU64 s.rec_files 1,
               imm_new_file := newest1,
               imm_old_file := oldest1,
               rec_new_file := maxInt64 s.rec_new_file newest1,
               rec_old_file := minInt64 s.rec_old_file oldest1 }
    let g2 := { g1 with maxFiles := setMaxFile g1.maxFiles size cleanPath }
    walkEntries rest parent depth d1 g2 newest1 oldest1
  | .statErrE _ rest, parent, depth, d, g, newest, oldest =>
    walkEntries rest parent depth d
      { g with filestatErrors := addU64 g.filestatErrors 1 } newest oldest
  | .specialE _ rest, parent, depth, d, g, newest, oldest =>
    walkEntries rest parent depth d
      { g with notDirOrFile := addU64 g.notDirOrFile 1 } newest oldest

/-- du.go:122-129: the body of `walkGo` after the path filter — directory
read (`content = some l` on success) and the entry loop. -/
def walkDirUnfiltered (name : String) (content : Option Fs) (depth : Nat)
    (g : Globals) : DirInfo × Globals :=
  match content with
  | none => (NewDirInfo name, { g with dirListErrors := addU64 g.dirListErrors 1 })
  | some l => walkEntries l name depth (NewDirInfo name) g minI64 maxI64

/-- du.go:102-191 `walkGo` on one directory node: the depth-limited path
filter (du.go:111-120), then the unfiltered body. -/
def walkDir (name : String) (content : Option Fs) (depth : Nat) (g : Globals) :
    DirInfo × Globals :=
  if depth ≤ 1 ∧ fsFilter name = true then
    (NewDirInfo name, { g with filterDirs := addU64 g.filterDirs 1 })
  else walkDirUnfiltered name content depth g

/-- The inlined child scan in `walkEntries` is exactly `walkGo` on the
child (readable-directory case). -/
theorem walkEntries_dirE (n : String) (sub rest : Fs) (parent : String)
    (depth : Nat) (d : DirInfo) (g : Globals) (newest oldest : Int) :
    walkEntries (.dirE n sub rest) parent depth d g newest oldest =
      walkEntries rest parent depth
        ((d.withStats fun s =>
          { s with imm_dirs := addU64 s.imm_dirs 1,
                   rec_dirs := addU64 s.rec_dirs 1 }).pushChild
          (walkDir (pjoin parent n) (some sub) (depth + 1)
            { g with countDirs := addU64 g.countDirs 1 }).1)
        (walkDir (pjoin parent n) (some sub) (depth + 1)
          { g with countDirs := addU64 g.countDirs 1 }).2 newest oldest := rfl

/-- The inlined child scan in `walkEntries` is exactly `walkGo` on the
child (unreadable-directory case). -/
theorem walkEntries_badDirE (n : String) (rest : Fs) (parent : String)
    (depth : Nat) (d : DirInfo) (g : Globals) (newest oldest : Int) :
    walkEntries (.badDirE n rest) parent depth d g newest oldest =
      walkEntries rest parent depth
        ((d.withStats fun s =>
          { s with imm_dirs := addU64 s.imm_dirs 1,
                   rec_dirs := addU64 s.rec_dirs 1 }).pushChild
          (walkDir (pjoin parent n) none (depth + 1)
            { g with countDirs := addU64 g.countDirs 1 }).1)
        (walkDir (pjoin parent n) none (depth + 1)
          { g with countDirs := addU64 g.countDirs 1 }).2 newest oldest := rfl

/-- The canonical (single-worker, depth-first) sequence of offers made to
the global largest-file collector while scanning listing `l` (du.go:181),
skipping filtered subtrees, unreadable directories, stat failures and
special entries exactly as `walkGo` does. -/
def fileRecords : Fs → String → Nat → List PathSize
  | .nilE, _, _ => []
  | .dirE n sub rest, parent, depth =>
    (if depth + 1 ≤ 1 ∧ fsFilter (pjoin parent n) = true then []
     else fileRecords sub (pjoin parent n) (depth + 1)) ++
      fileRecords rest parent depth
  | .badDirE _ rest, parent, depth => fileRecords rest parent depth
  | .fileE n size _ rest, parent, depth =>
    ⟨size, pjoin parent n⟩ :: fileRecords rest parent depth
  | .statErrE _ rest, parent, depth => fileRecords rest parent depth
  | .specialE _ rest, parent, depth => fileRecords rest parent depth

/-! ## Two-phase roll-up (du.go:193-204) -/

/-- du.go:193-204 `treePerk`: for each child in order, roll the child up,
then fold its recursive fields into the parent's. -/
def treePerk : DirInfo → DirInfo
  | .mk s kids =>
    let pk := kids.attach.map fun c => treePerk c.1
    .mk { s with
      rec_size := pk.foldl (fun a c => addU64 a c.stats.rec_size) s.rec_size,
      rec_files := pk.foldl (fun a c => addU64 a c.stats.rec_files) s.rec_files,
      rec_dirs := pk.foldl (fun a c => addU64 a c.stats.rec_dirs) s.rec_dirs,
      rec_new_file :=
        pk.foldl (fun a c => maxInt64 a c.stats.rec_new_file) s.rec_new_file,
      rec_old_file :=
        pk.foldl (fun a c => minInt64 a c.stats.rec_old_file) s.rec_old_file } pk
decreasing_by
  have := List.sizeOf_lt_of_mem c.2
  rw [DirInfo.mk.sizeOf_spec]
  omega

/-! ### The post-scan invariant: recursive fields equal immediate fields -/

theorem DirInfo.withStats_stats (d : DirInfo) (f : DirStats → DirStats) :
    (d.withStats f).stats = f d.stats := by
  cases d
  rfl

theorem DirInfo.withStats_children (d : DirInfo) (f : DirStats → DirStats) :
    (d.withStats f).children = d.children := by
  cases d
  rfl

theorem DirInfo.pushChild_stats (d c : DirInfo) :
    (d.pushChild c).stats = d.stats := by
  cases d
  rfl

theorem DirInfo.pushChild_children (d c : DirInfo) :
    (d.pushChild c).children = d.children ++ [c] := by
  cases d
  rfl

theorem NewDirInfo_children (name : String) : (NewDirInfo name).children = [] := rfl

/-- Per-node equality of recursive and immediate fields. -/
def StatsEq (s : DirStats) : Prop :=
  s.rec_size = s.imm_size ∧ s.rec_files = s.imm_files ∧
  s.rec_dirs = s.imm_dirs ∧ s.rec_new_file = s.imm_new_file ∧
  s.rec_old_file = s.imm_old_file

/-- Every node of the tree satisfies `StatsEq` — the state `walkGo` leaves
behind, since it adds every contribution to both field families
(du.go:139-140, du.go:166-179). -/
def TreeEq (d : DirInfo) : Prop := ∀ n, Subnode d n → StatsEq n.stats

theorem Subnode.cases_mk {s : DirStats} {kids : List DirInfo} {n : DirInfo}
    (h : Subnode (DirInfo.mk s kids) n) :
    n = DirInfo.mk s kids ∨ ∃ c ∈ kids, Subnode c n := by
  cases h with
  | refl => exact Or.inl rfl
  | step hc hsub => exact Or.inr ⟨_, hc, hsub⟩

theorem TreeEq.ofParts {s : DirStats} {kids : List DirInfo} (hs : StatsEq s)
    (hk : ∀ c ∈ kids, TreeEq c) : TreeEq (DirInfo.mk s kids) := by
  intro n hn
  rcases hn.cases_mk with h | ⟨c, hc, hsub⟩
  · subst h
    exact hs
  · exact hk c hc n hsub

theorem TreeEq.child {d c : DirInfo} (hd : TreeEq d) (hc : c ∈ d.children) :
    TreeEq c := fun n hn => hd n (.step hc hn)

theorem TreeEq.self {d : DirInfo} (hd : TreeEq d) : StatsEq d.stats :=
  hd d (.refl d)

/-- Loop invariant of the walkGo entry loop: the node's extrema mirror the
loop-local `newest`/`oldest`, its recursive fields mirror the immediate
ones, and every already-scanned child satisfies `TreeEq`. -/
structure WalkInv (d : DirInfo) (newest oldest : Int) : Prop where
  immNew : d.stats.imm_new_file = newest
  recNew : d.stats.rec_new_file = newest
  immOld : d.stats.imm_old_file = oldest
  recOld : d.stats.rec_old_file = oldest
  recSize : d.stats.rec_size = d.stats.imm_size
  recFiles : d.stats.rec_files = d.stats.imm_files
  recDirs : d.stats.rec_dirs = d.stats.imm_dirs
  kids : ∀ c ∈ d.children, TreeEq c

theorem walkInv_new (name : String) : WalkInv (NewDirInfo name) minI64 maxI64 := by
  refine ⟨rfl, rfl, rfl, rfl, rfl, rfl, rfl, ?_⟩
  intro c hc
  simp [NewDirInfo_children] at hc

theorem treeEq_of_walkInv {d : DirInfo} {newest oldest : Int}
    (h : WalkInv d newest oldest) : TreeEq d := by
  intro n hn
  cases d with
  | mk s kids =>
    rcases hn.cases_mk with heq | ⟨c, hc, hsub⟩
    · subst heq
      exact ⟨h.recSize, h.recFiles, h.recDirs,
        by rw [h.recNew, h.immNew], by rw [h.recOld, h.immOld]⟩
    · exact h.kids c hc n hsub

theorem treeEq_new (name : String) : TreeEq (NewDirInfo name) :=
  treeEq_of_walkInv (walkInv_new name)

theorem maxInt64_absorb (a m : Int) :
    maxInt64 a (if a < m then m else a) = (if a < m then m else a) := by
  unfold maxInt64
  by_cases h : a < m
  · rw [if_pos h, if_pos h]
  · rw [if_neg h, if_neg (lt_irrefl a)]

theorem minInt64_absorb (a m : Int) :
    minInt64 a (if m < a then m else a) = (if m < a then m else a) := by
  unfold minInt64
  by_cases h : m < a
  · rw [if_pos h, if_pos h]
  · rw [if_neg h, if_neg (lt_irrefl a)]

/-- After scanning a listing from an invariant-satisfying loop state, the
produced node satisfies `TreeEq`: recursive fields equal immediate fields
at every node, before the roll-up runs. -/
theorem walkEntries_rec_eq_imm (l : Fs) :
    ∀ (parent : String) (depth : Nat) (d : DirInfo) (g : Globals)
      (newest oldest : Int), WalkInv d newest oldest →
      TreeEq (walkEntries l parent depth d g newest oldest).1 := by
  induction l with
  | nilE =>
    intro parent depth d g newest oldest hinv
    exact treeEq_of_walkInv hinv
  | dirE n sub rest ih_sub ih_rest =>
    intro parent depth d g newest oldest hinv
    have hchild : ∀ g' : Globals,
        TreeEq (walkDir (pjoin parent n) (some sub) (depth + 1) g').1 := by
      intro g'
      unfold walkDir walkDirUnfiltered
      split
      · exact treeEq_new _
      · exact ih_sub _ _ _ _ _ _ (walkInv_new _)
    rw [walkEntries_dirE]
    apply ih_rest
    refine ⟨?_, ?_, ?_, ?_, ?_, ?_, ?_, ?_⟩
    · simp only [DirInfo.pushChild_stats, DirInfo.withStats_stats]
      exact hinv.immNew
    · simp only [DirInfo.pushChild_stats, DirInfo.withStats_stats]
      exact hinv.recNew
    · simp only [DirInfo.pushChild_stats, DirInfo.withStats_stats]
      exact hinv.immOld
    · simp only [DirInfo.pushChild_stats, DirInfo.withStats_stats]
      exact hinv.recOld
    · simp only [DirInfo.pushChild_stats, DirInfo.withStats_stats]
      exact hinv.recSize
    · simp only [DirInfo.pushChild_stats, DirInfo.withStats_stats]
      exact hinv.recFiles
    · simp only [DirInfo.pushChild_stats, DirInfo.withStats_stats]
      rw [hinv.recDirs]
    · simp only [DirInfo.pushChild_children, DirInfo.withStats_children]
      intro c hc
      rcases List.mem_append.mp hc with h | h
      · exact hinv.kids c h
      · rw [List.mem_singleton.mp h]
        exact hchild _
  | badDirE n rest ih_rest =>
    intro parent depth d g newest oldest hinv
    rw [walkEntries_badDirE]
    apply ih_rest
    refine ⟨?_, ?_, ?_, ?_, ?_, ?_, ?_, ?_⟩
    · simp only [DirInfo.pushChild_stats, DirInfo.withStats_stats]
      exact hinv.immNew
    · simp only [DirInfo.pushChild_stats, DirInfo.withStats_stats]
      exact hinv.recNew
    · simp only [DirInfo.pushChild_stats, DirInfo.withStats_stats]
      exact hinv.immOld
    · simp only [DirInfo.pushChild_stats, DirInfo.withStats_stats]
      exact hinv.recOld
    · simp only [DirInfo.pushChild_stats, DirInfo.withStats_stats]
      exact hinv.recSize
    · simp only [DirInfo.pushChild_stats, DirInfo.withStats_stats]
      exact hinv.recFiles
    · simp only [DirInfo.pushChild_stats, DirInfo.withStats_stats]
      rw [hinv.recDirs]
    · simp only [DirInfo.pushChild_children, DirInfo.withStats_children]
      intro c hc
      rcases List.mem_append.mp hc with h | h
      · exact hinv.kids c h
      · rw [List.mem_singleton.mp h]
        unfold walkDir
        split
        · exact treeEq_new _
        · exact treeEq_new _
  | fileE n size modtime rest ih_rest =>
    intro parent depth d g newest oldest hinv
    simp only [walkEntries]
    apply ih_rest
    refine ⟨?_, ?_, ?_, ?_, ?_, ?_, ?_, ?_⟩
    · simp only [DirInfo.withStats_stats]
    · simp only [DirInfo.withStats_stats]
      rw [hinv.recNew]
      exact maxInt64_absorb newest modtime
    · simp only [DirInfo.withStats_stats]
    · simp only [DirInfo.withStats_stats]
      rw [hinv.recOld]
      exact minInt64_absorb oldest modtime
    · simp only [DirInfo.withStats_stats]
      rw [hinv.recSize]
    · simp only [DirInfo.withStats_stats]
      rw [hinv.recFiles]
    · simp only [DirInfo.withStats_stats]
      rw [hinv.recDirs]
    · simp only [DirInfo.withStats_children]
      exact hinv.kids
  | statErrE n rest ih_rest =>
    intro parent depth d g newest oldest hinv
    simp only [walkEntries]
    exact ih_rest _ _ _ _ _ _ hinv
  | specialE n rest ih_rest =>
    intro parent depth d g newest oldest hinv
    simp only [walkEntries]
    exact ih_rest _ _ _ _ _ _ hinv

/-- Every node `walkGo` produces has its recursive fields equal to its
immediate fields. -/
theorem walkDir_rec_eq_imm (name : String) (content : Option Fs)
    (depth : Nat) (g : Globals) :
    TreeEq (walkDir name content depth g).1 := by
  unfold walkDir walkDirUnfiltered
  split
  · exact treeEq_new _
  · split
    · exact treeEq_new _
    · exact walkEntries_rec_eq_imm _ _ _ _ _ _ _ (walkInv_new _)

/-! ### The roll-up relations (claim C1) -/

theorem treePerk_mk (s : DirStats) (kids : List DirInfo) :
    treePerk (DirInfo.mk s kids) =
      DirInfo.mk
        { s with
          rec_size := (kids.attach.map fun c => treePerk c.1).foldl
            (fun a c => addU64 a c.stats.rec_size) s.rec_size,
          rec_files := (kids.attach.map fun c => treePerk c.1).foldl
            (fun a c => addU64 a c.stats.rec_files) s.rec_files,
          rec_dirs := (kids.attach.map fun c => treePerk c.1).foldl
            (fun a c => addU64 a c.stats.rec_dirs) s.rec_dirs,
          rec_new_file := (kids.attach.map fun c => treePerk c.1).foldl
            (fun a c => maxInt64 a c.stats.rec_new_file) s.rec_new_file,
          rec_old_file := (kids.attach.map fun c => treePerk c.1).foldl
            (fun a c => minInt64 a c.stats.rec_old_file) s.rec_old_file }
        (kids.attach.map fun c => treePerk c.1) := by
  rw [treePerk]

/-- The roll-up relations of claim C1 at one node: with u64 modular
addition, `rec_size` equals `imm_size` plus the children's `rec_size`
(folded left exactly as `treePerk` accumulates), likewise for file and
directory counts; `rec_new_file` is the maximum of `imm_new_file` and all
children's `rec_new_file`; `rec_old_file` the analogous minimum. -/
def RollupRel (n : DirInfo) : Prop :=
  n.stats.rec_size =
    n.children.foldl (fun a c => addU64 a c.stats.rec_size) n.stats.imm_size ∧
  n.stats.rec_files =
    n.children.foldl (fun a c => addU64 a c.stats.rec_files) n.stats.imm_files ∧
  n.stats.rec_dirs =
    n.children.foldl (fun a c => addU64 a c.stats.rec_dirs) n.stats.imm_dirs ∧
  n.stats.rec_new_file =
    n.children.foldl (fun a c => maxInt64 a c.stats.rec_new_file)
      n.stats.imm_new_file ∧
  n.stats.rec_old_file =
    n.children.foldl (fun a c => minInt64 a c.stats.rec_old_file)
      n.stats.imm_old_file

/-- Rolling up a tree whose recursive fields equal its immediate fields
establishes the C1 relations at every node. -/
theorem treePerk_rollup (d : DirInfo) :
    TreeEq d → ∀ n, Subnode (treePerk d) n → RollupRel n := by
  induction d using DirInfo.inductionOn with
  | h s kids ihk =>
    intro hd n hn
    rw [treePerk_mk] at hn
    rcases hn.cases_mk with heq | ⟨c, hc, hsub⟩
    · subst heq
      have hse : StatsEq s := hd.self
      refine ⟨?_, ?_, ?_, ?_, ?_⟩ <;>
        simp only [DirInfo.stats, DirInfo.children]
      · rw [hse.1]
      · rw [hse.2.1]
      · rw [hse.2.2.1]
      · rw [hse.2.2.2.1]
      · rw [hse.2.2.2.2]
    · obtain ⟨x, hx, hcx⟩ := List.mem_map.mp hc
      have hmem : x.1 ∈ kids := x.2
      have htx : TreeEq x.1 :=
        hd.child (show x.1 ∈ (DirInfo.mk s kids).children from hmem)
      subst hcx
      exact ihk x.1 hmem htx n hsub

/-! ### The scan's collector state is the fold of the canonical offers -/

/-- Accumulation of `totalSize` over an offer list (du.go:167). -/
def totFold (a : Nat) (l : List PathSize) : Nat :=
  l.foldl (fun a p => addU64 a (u64ofInt p.size)) a

/-- Accumulation of `countFiles` over an offer list (du.go:166). -/
def cntFold (a : Nat) (l : List PathSize) : Nat :=
  l.foldl (fun a _ => addU64 a 1) a

theorem offerFold_append (m : MaxGlobalFile) (l1 l2 : List PathSize) :
    offerFold m (l1 ++ l2) = offerFold (offerFold m l1) l2 := by
  simp [offerFold, List.foldl_append]

theorem totFold_append (a : Nat) (l1 l2 : List PathSize) :
    totFold a (l1 ++ l2) = totFold (totFold a l1) l2 := by
  simp [totFold, List.foldl_append]

theorem cntFold_append (a : Nat) (l1 l2 : List PathSize) :
    cntFold a (l1 ++ l2) = cntFold (cntFold a l1) l2 := by
  simp [cntFold, List.foldl_append]

/-- The global collector, total size and file count that the scan leaves
behind are folds of the canonical depth-first offer sequence. -/
theorem walkEntries_offers (l : Fs) :
    ∀ (parent : String) (depth : Nat) (d : DirInfo) (g : Globals)
      (newest oldest : Int),
      (walkEntries l parent depth d g newest oldest).2.maxFiles =
        offerFold g.maxFiles (fileRecords l parent depth) ∧
      (walkEntries l parent depth d g newest oldest).2.totalSize =
        totFold g.totalSize (fileRecords l parent depth) ∧
      (walkEntries l parent depth d g newest oldest).2.countFiles =
        cntFold g.countFiles (fileRecords l parent depth) := by
  induction l with
  | nilE =>
    intro parent depth d g newest oldest
    exact ⟨rfl, rfl, rfl⟩
  | dirE n sub rest ih_sub ih_rest =>
    intro parent depth d g newest oldest
    rw [walkEntries_dirE]
    simp only [fileRecords]
    by_cases hcond : depth + 1 ≤ 1 ∧ fsFilter (pjoin parent n) = true
    · rw [if_pos hcond]
      have hwd : walkDir (pjoin parent n) (some sub) (depth + 1)
          { g with countDirs := addU64 g.countDirs 1 } =
          (NewDirInfo (pjoin parent n),
            { g with countDirs := addU64 g.countDirs 1,
                     filterDirs := addU64 g.filterDirs 1 }) := by
        unfold walkDir
        rw [if_pos hcond]
      rw [hwd]
      exact ih_rest _ _ _ _ _ _
    · rw [if_neg hcond]
      have hwd : walkDir (pjoin parent n) (some sub) (depth + 1)
          { g with countDirs := addU64 g.countDirs 1 } =
          walkEntries sub (pjoin parent n) (depth + 1)
            (NewDirInfo (pjoin parent n))
            { g with countDirs := addU64 g.countDirs 1 } minI64 maxI64 := by
        unfold walkDir walkDirUnfiltered
        rw [if_neg hcond]
      rw [hwd]
      refine ⟨?_, ?_, ?_⟩
      · rw [(ih_rest parent depth _ _ newest oldest).1,
          (ih_sub (pjoin parent n) (depth + 1) _ _ minI64 maxI64).1,
          offerFold_append]
      · rw [(ih_rest parent depth _ _ newest oldest).2.1,
          (ih_sub (pjoin parent n) (depth + 1) _ _ minI64 maxI64).2.1,
          totFold_append]
      · rw [(ih_rest parent depth _ _ newest oldest).2.2,
          (ih_sub (pjoin parent n) (depth + 1) _ _ minI64 maxI64).2.2,
          cntFold_append]
  | badDirE n rest ih_rest =>
    intro parent depth d g newest oldest
    rw [walkEntries_badDirE]
    simp only [fileRecords]
    by_cases hcond : depth + 1 ≤ 1 ∧ fsFilter (pjoin parent n) = true
    · have hwd : walkDir (pjoin parent n) none (depth + 1)
          { g with countDirs := addU64 g.countDirs 1 } =
          (NewDirInfo (pjoin parent n),
            { g with countDirs := addU64 g.countDirs 1,
                     filterDirs := addU64 g.filterDirs 1 }) := by
        unfold walkDir
        rw [if_pos hcond]
      rw [hwd]
      exact ih_rest _ _ _ _ _ _
    · have hwd : walkDir (pjoin parent n) none (depth + 1)
          { g with countDirs := addU64 g.countDirs 1 } =
          (NewDirInfo (pjoin parent n),
            { g with countDirs := addU64 g.countDirs 1,
                     dirListErrors := addU64 g.dirListErrors 1 }) := by
        unfold walkDir walkDirUnfiltered
        rw [if_neg hcond]
      rw [hwd]
      exact ih_rest _ _ _ _ _ _
  | fileE n size modtime rest ih_rest =>
    intro parent depth d g newest oldest
    simp only [walkEntries, fileRecords]
    exact ih_rest _ _ _ _ _ _
  | statErrE n rest ih_rest =>
    intro parent depth d g newest oldest
    simp only [walkEntries, fileRecords]
    exact ih_rest _ _ _ _ _ _
  | specialE n rest ih_rest =>
    intro parent depth d g newest oldest
    simp only [walkEntries, fileRecords]
    exact ih_rest _ _ _ _ _ _

/-! ## Claim C1 -/

/-- C1: after the roll-up phase (`treePerk`) completes, every DirNode N of
the scanned tree satisfies `N.rec_size = N.imm_size + Σ child.rec_size`
(u64 addition), the same additive relation between `rec_files`/`imm_files`
and `rec_dirs`/`imm_dirs`, `N.rec_new_file = max(N.imm_new_file, max
child.rec_new_file)` and `N.rec_old_file = min(N.imm_old_file, min
child.rec_old_file)`. -/
theorem C1_rollup_relations (name : String) (content : Option Fs)
    (depth K : Nat) (n : DirInfo)
    (hn : Subnode (treePerk (walkDir name content depth (initGlobals K)).1) n) :
    RollupRel n :=
  treePerk_rollup _ (walkDir_rec_eq_imm name content depth (initGlobals K)) n hn

theorem C1_rollup_relations_witness :
    RollupRel (treePerk
      (walkDir "/r" (some (.fileE "a" 5 100 .nilE)) 0 (initGlobals 10)).1) :=
  C1_rollup_relations "/r" (some (.fileE "a" 5 100 .nilE)) 0 10 _
    (Subnode.refl _)

/-! ## Claim C2 -/

/-- C2: scanning five files of sizes 1..5 with K = 3 leaves the collector
holding exactly the three largest records {3, 4, 5} — but the watermark
stays 0, not 3: the watermark store in du.go:90-91 is guarded by
`currMin > size` inside `if size > currMin` and can never execute. -/
theorem C2_s6_watermark_eval :
    (walkDir "/r"
      (some (.fileE "f1" 1 0 (.fileE "f2" 2 0 (.fileE "f3" 3 0
        (.fileE "f4" 4 0 (.fileE "f5" 5 0 .nilE)))))) 0
      (initGlobals 3)).2.maxFiles =
      { limits := 3, minFile := 0,
        mapMax := [⟨3, "/r/f3"⟩, ⟨4, "/r/f4"⟩, ⟨5, "/r/f5"⟩] } ∧
    (walkDir "/r"
      (some (.fileE "f1" 1 0 (.fileE "f2" 2 0 (.fileE "f3" 3 0
        (.fileE "f4" 4 0 (.fileE "f5" 5 0 .nilE)))))) 0
      (initGlobals 3)).2.maxFiles.minFile ≠ 3 := by
  decide

/-! ## Claim C3 -/

/-- C3 counterexample: in the current revision (du.go:80-94), after the
third offer evicts the minimum, the watermark is 0, not the new minimum 2;
and in the older revision (du.go:449-464), after inserting 20 into {5,10}
with K = 2 the watermark becomes the inserted size 20, which exceeds the
set minimum 10 — refuting "watermark is updated to the new minimum of the
set" and, for the older revision, "watermark ≤ min(T)". -/
theorem C3_watermark_counterexample :
    offerFold (NewMaxGlobalFile 2) [⟨1, "a"⟩, ⟨2, "b"⟩, ⟨3, "c"⟩] =
      { limits := 2, minFile := 0, mapMax := [⟨2, "b"⟩, ⟨3, "c"⟩] } ∧
    (offerFold (NewMaxGlobalFile 2) [⟨1, "a"⟩, ⟨2, "b"⟩, ⟨3, "c"⟩]).minFile ≠ 2 ∧
    offerFoldV2 (NewMaxGlobalFile 2) [⟨5, "a"⟩, ⟨10, "b"⟩, ⟨20, "c"⟩] =
      { limits := 2, minFile := 20, mapMax := [⟨10, "b"⟩, ⟨20, "c"⟩] } ∧
    ¬ ((offerFoldV2 (NewMaxGlobalFile 2)
        [⟨5, "a"⟩, ⟨10, "b"⟩, ⟨20, "c"⟩]).minFile ≤ 10) := by
  decide

/-- C3 (amended): across every offer sequence, the collector keeps
`|T| ≤ K`, keeps the tree strictly sorted by size, and keeps every element
strictly above the watermark (hence watermark ≤ min(T)); the watermark
itself is never written after initialization — it stays 0 (so it never
decreases), and an eviction does not update it to the new minimum. -/
theorem C3_collector_invariants (l : List PathSize) (K : Nat) :
    (offerFold (NewMaxGlobalFile K) l).mapMax.length ≤
      (offerFold (NewMaxGlobalFile K) l).limits ∧
    StrictBySize (offerFold (NewMaxGlobalFile K) l).mapMax ∧
    (offerFold (NewMaxGlobalFile K) l).minFile = 0 ∧
    ∀ p ∈ (offerFold (NewMaxGlobalFile K) l).mapMax,
      (offerFold (NewMaxGlobalFile K) l).minFile < p.size := by
  have hinv : CollectorInv (offerFold (NewMaxGlobalFile K) l) :=
    offerFold_inv ⟨List.chain'_nil, Nat.zero_le K⟩
  refine ⟨hinv.2, hinv.1, offerFold_minFile l _, ?_⟩
  exact offerFold_above_watermark (fun p hp => absurd hp (List.not_mem_nil p))

/-! ## Claim C5 -/

/-- C5 counterexample: two files of equal size 5 in one directory, K = 1.
The reversed offer order is a permutation of the canonical scan order, yet
it leaves {(5, "/r/a")} in the collector while the depth-first scan leaves
{(5, "/r/b")}: `ReplaceOrInsert` keeps the last arrival of a size, so the
top-K contents as a set depend on the interleaving. -/
theorem C5_equal_size_counterexample :
    (fileRecords (.fileE "a" 5 0 (.fileE "b" 5 0 .nilE)) "/r" 0).reverse.Perm
      (fileRecords (.fileE "a" 5 0 (.fileE "b" 5 0 .nilE)) "/r" 0) ∧
    (offerFold (NewMaxGlobalFile 1)
      (fileRecords (.fileE "a" 5 0 (.fileE "b" 5 0 .nilE)) "/r" 0).reverse).mapMax
      = [⟨5, "/r/a"⟩] ∧
    (walkDir "/r" (some (.fileE "a" 5 0 (.fileE "b" 5 0 .nilE))) 0
      (initGlobals 1)).2.maxFiles.mapMax = [⟨5, "/r/b"⟩] ∧
    ¬ ([(⟨5, "/r/a"⟩ : PathSize)] ⊆ [(⟨5, "/r/b"⟩ : PathSize)]) := by
  refine ⟨List.reverse_perm _, by decide, by decide, by decide⟩

/-- C5 (amended): a W = N run is modelled as the deterministic per-node
tree results (single-writer, hence σ-independent by construction) plus the
collector offers folded over an arbitrary linearization σ of the canonical
offer sequence. For every such σ: the total size and the file count equal
the W = 1 scan's, and — provided all file sizes are pairwise distinct —
the collector state is identical to the W = 1 scan's. With tied sizes only
which path represents a size may differ (counterexample above); ordering
inside the btree is by size either way. -/
theorem C5_determinism_amended (l : Fs) (parent : String) (depth K : Nat)
    (σ : List PathSize)
    (hperm : σ.Perm (fileRecords l parent depth))
    (hdist : (fileRecords l parent depth).Pairwise
      (fun p q => p.size ≠ q.size)) :
    offerFold (NewMaxGlobalFile K) σ =
      (walkDirUnfiltered parent (some l) depth (initGlobals K)).2.maxFiles ∧
    totFold 0 σ =
      (walkDirUnfiltered parent (some l) depth (initGlobals K)).2.totalSize ∧
    σ.length = (fileRecords l parent depth).length := by
  have hw := walkEntries_offers l parent depth (NewDirInfo parent)
    (initGlobals K) minI64 maxI64
  refine ⟨?_, ?_, hperm.length_eq⟩
  · rw [show (walkDirUnfiltered parent (some l) depth (initGlobals K)).2 =
      (walkEntries l parent depth (NewDirInfo parent) (initGlobals K)
        minI64 maxI64).2 from rfl, hw.1]
    exact offerFold_perm hperm _ ⟨List.chain'_nil, Nat.zero_le K⟩
      (hperm.symm.pairwise hdist (fun h => Ne.symm h))
  · rw [show (walkDirUnfiltered parent (some l) depth (initGlobals K)).2 =
      (walkEntries l parent depth (NewDirInfo parent) (initGlobals K)
        minI64 maxI64).2 from rfl, hw.2.1]
    exact hperm.foldl_eq'
      (fun x _ y _ z => addU64_right_comm z (u64ofInt x.size) (u64ofInt y.size)) 0

theorem C5_determinism_amended_witness :
    (fileRecords (.fileE "a" 5 0 (.fileE "b" 7 0 .nilE)) "/r" 0).reverse.Perm
      (fileRecords (.fileE "a" 5 0 (.fileE "b" 7 0 .nilE)) "/r" 0) ∧
    (fileRecords (.fileE "a" 5 0 (.fileE "b" 7 0 .nilE)) "/r" 0).Pairwise
      (fun p q => p.size ≠ q.size) ∧
    (offerFold (NewMaxGlobalFile 10)
        (fileRecords (.fileE "a" 5 0 (.fileE "b" 7 0 .nilE)) "/r" 0).reverse =
      (walkDirUnfiltered "/r" (some (.fileE "a" 5 0 (.fileE "b" 7 0 .nilE))) 0
        (initGlobals 10)).2.maxFiles ∧
     totFold 0 (fileRecords (.fileE "a" 5 0 (.fileE "b" 7 0 .nilE)) "/r" 0).reverse =
      (walkDirUnfiltered "/r" (some (.fileE "a" 5 0 (.fileE "b" 7 0 .nilE))) 0
        (initGlobals 10)).2.totalSize ∧
     (fileRecords (.fileE "a" 5 0 (.fileE "b" 7 0 .nilE)) "/r" 0).reverse.length =
      (fileRecords (.fileE "a" 5 0 (.fileE "b" 7 0 .nilE)) "/r" 0).length) :=
  ⟨List.reverse_perm _, by decide,
    C5_determinism_amended (.fileE "a" 5 0 (.fileE "b" 7 0 .nilE)) "/r" 0 10 _
      (List.reverse_perm _) (by decide)⟩

/-! ## Claim C9 -/

/-- C9: an offer with size ≤ 0 never changes the collector, even when it
holds fewer than K elements: `setMaxFile` requires `size > watermark`, and
the watermark is initialized to 0 and never modified afterwards. -/
theorem C9_zero_size_never_collected (l : List PathSize) (K : Nat)
    (s : Int) (p : String) (hs : s ≤ 0) :
    setMaxFile (offerFold (NewMaxGlobalFile K) l) s p =
      offerFold (NewMaxGlobalFile K) l := by
  apply setMaxFile_of_le
  rw [offerFold_minFile]
  show ¬ (0 : Int) < s
  omega

theorem C9_zero_size_never_collected_witness :
    (0 : Int) ≤ 0 ∧
    setMaxFile (offerFold (NewMaxGlobalFile 3) [⟨1, "a"⟩]) 0 "z" =
      offerFold (NewMaxGlobalFile 3) [⟨1, "a"⟩] :=
  ⟨by decide, C9_zero_size_never_collected [⟨1, "a"⟩] 3 0 "z" (by decide)⟩

/-! ## Claim C10 -/

/-- C10: every top-K btree (the global largest-file tree via `setMaxFile`
and the per-directory summary trees via `trySetNewMaxPath`) holds at most
one element per size value, because the comparator orders by size only and
`ReplaceOrInsert` replaces an equal-size element; offering n ≥ 1 records
of one size leaves exactly one entry for it. -/
theorem C10_one_entry_per_size (ops t0 : List PathSize) (K : Nat)
    (h0 : StrictBySize t0) (z : Int) (r : PathSize) (n : Nat) (hK : 0 < K) :
    StrictBySize (summaryFold K t0 ops) ∧
    (summaryFold K t0 ops).countP (fun q => q.size == z) ≤ 1 ∧
    StrictBySize (offerFold (NewMaxGlobalFile K) ops).mapMax ∧
    (offerFold (NewMaxGlobalFile K) ops).mapMax.countP
      (fun q => q.size == z) ≤ 1 ∧
    summaryFold K [] (List.replicate (n + 1) r) = [r] := by
  have hg : CollectorInv (offerFold (NewMaxGlobalFile K) ops) :=
    offerFold_inv ⟨List.chain'_nil, Nat.zero_le K⟩
  refine ⟨summaryFold_sorted h0, (summaryFold_sorted h0).countP_le_one z,
    hg.1, hg.1.countP_le_one z, ?_⟩
  rw [List.replicate_succ]
  show summaryFold K (trySetNewMaxPath [] r.size r.path K)
    (List.replicate n r) = [r]
  have hfirst : trySetNewMaxPath [] r.size r.path K = [r] := by
    rw [trySetNewMaxPath_eq_trim, replaceOrInsert_nil]
    unfold trimTo
    rw [if_neg (by simp only [List.length_singleton]; omega)]
  rw [hfirst]
  exact summaryFold_replicate_same hK r n

theorem C10_one_entry_per_size_witness :
    StrictBySize ([] : List PathSize) ∧ 0 < 3 ∧
    (StrictBySize (summaryFold 3 [] [⟨5, "a"⟩, ⟨5, "b"⟩]) ∧
     (summaryFold 3 [] [⟨5, "a"⟩, ⟨5, "b"⟩]).countP
       (fun q => q.size == 5) ≤ 1 ∧
     StrictBySize (offerFold (NewMaxGlobalFile 3) [⟨5, "a"⟩, ⟨5, "b"⟩]).mapMax ∧
     (offerFold (NewMaxGlobalFile 3) [⟨5, "a"⟩, ⟨5, "b"⟩]).mapMax.countP
       (fun q => q.size == 5) ≤ 1 ∧
     summaryFold 3 [] (List.replicate 2 ⟨7, "x"⟩) = [⟨7, "x"⟩]) :=
  ⟨by decide, by decide,
    C10_one_entry_per_size [⟨5, "a"⟩, ⟨5, "b"⟩] [] 3 (by decide) 5 ⟨7, "x"⟩ 1
      (by decide)⟩

/-! ## Claim C8 -/

/-- C8: a directory whose depth is at most 1 and whose name is in the
configured filter set (`/proc`, `/dev`, `/sys`) makes the traversal
increment `filterDirs` and return without listing the directory; with the
same name at depth greater than 1 the directory is scanned normally (the
filter branch is not taken). -/
theorem C8_path_filter (name : String) (content : Option Fs) (depth : Nat)
    (g : Globals) (hname : fsFilter name = true) :
    (depth ≤ 1 →
      walkDir name content depth g =
        (NewDirInfo name, { g with filterDirs := addU64 g.filterDirs 1 })) ∧
    (1 < depth →
      walkDir name content depth g = walkDirUnfiltered name content depth g) := by
  constructor
  · intro hd
    unfold walkDir
    rw [if_pos ⟨hd, hname⟩]
  · intro hd
    unfold walkDir
    rw [if_neg (by rintro ⟨h1, -⟩; omega)]

theorem C8_path_filter_witness :
    fsFilter "/proc" = true ∧
    ((1 ≤ 1 → walkDir "/proc" (some .nilE) 1 (initGlobals 5) =
      (NewDirInfo "/proc",
        { initGlobals 5 with
          filterDirs := addU64 (initGlobals 5).filterDirs 1 })) ∧
     (1 < 1 → walkDir "/proc" (some .nilE) 1 (initGlobals 5) =
      walkDirUnfiltered "/proc" (some .nilE) 1 (initGlobals 5))) ∧
    ((2 ≤ 1 → walkDir "/proc" (some .nilE) 2 (initGlobals 5) =
      (NewDirInfo "/proc",
        { initGlobals 5 with
          filterDirs := addU64 (initGlobals 5).filterDirs 1 })) ∧
     (1 < 2 → walkDir "/proc" (some .nilE) 2 (initGlobals 5) =
      walkDirUnfiltered "/proc" (some .nilE) 2 (initGlobals 5))) :=
  ⟨by decide,
    C8_path_filter "/proc" (some .nilE) 1 (initGlobals 5) (by decide),
    C8_path_filter "/proc" (some .nilE) 2 (initGlobals 5) (by decide)⟩

/-! ## Program entry and exit status (du.go:260-371) -/

/-- Outcome of `main`: `exited c` is `os.Exit(c)`; `returnedEarly` is the
plain `return` after the root-resolution failure (the process then exits
0); `completed` carries the rolled-up scan of a full run (exit 0). -/
inductive MainResult where
  | exited (code : Nat)
  | returnedEarly
  | completed (root : DirInfo) (g : Globals)

/-- du.go:280-320 `main` control flow: extra positional arguments print a
message and `os.Exit(2)` (du.go:285); a root that `filepath.Abs` cannot
resolve prints and returns (du.go:289-293); otherwise the scan and the
roll-up run. `absPath = none` models the `filepath.Abs` failure. -/
def mainGo (extraArgs : List String) (absPath : Option String)
    (content : Option Fs) (summaryLimit : Nat) : MainResult :=
  if 0 < extraArgs.length then .exited 2
  else
    match absPath with
    | none => .returnedEarly
    | some p =>
      let rg := walkDir p content 0 (initGlobals summaryLimit)
      .completed (treePerk rg.1) rg.2

/-- Process exit status of a `main` outcome; returning from `main` (early
or at the end) exits 0. -/
def exitStatus : MainResult → Nat
  | .exited c => c
  | .returnedEarly => 0
  | .completed _ _ => 0

/-! ## Claim C6 -/

/-- C6 counterexample: when the root cannot be resolved to an absolute
path, `main` prints the error and returns (du.go:290-293), so the process
exits 0, not 3 — no path in `main` calls `os.Exit(3)`. -/
theorem C6_exit3_counterexample :
    mainGo [] none (some .nilE) 10 = .returnedEarly ∧
    exitStatus (mainGo [] none (some .nilE) 10) = 0 ∧
    exitStatus (mainGo [] none (some .nilE) 10) ≠ 3 := by
  refine ⟨rfl, rfl, by decide⟩

/-- C6 (amended): the process exits 2 when extra positional arguments are
supplied, 0 on success, and 0 — not 3 — when the root path cannot be
resolved (main returns after printing the error); entry-level scan errors
never affect the exit status: every completed scan exits 0, for every
input filesystem. -/
theorem C6_exit_codes (args : List String) (p : String)
    (content content2 : Option Fs) (K : Nat) (hargs : args ≠ []) :
    exitStatus (mainGo args (some p) content K) = 2 ∧
    mainGo [] none content K = .returnedEarly ∧
    exitStatus (mainGo [] none content K) = 0 ∧
    exitStatus (mainGo [] (some p) content K) = 0 ∧
    exitStatus (mainGo [] (some p) content K) =
      exitStatus (mainGo [] (some p) content2 K) := by
  refine ⟨?_, rfl, rfl, rfl, rfl⟩
  unfold mainGo
  rw [if_pos (List.length_pos.mpr hargs)]
  rfl

theorem C6_exit_codes_witness :
    ["x"] ≠ ([] : List String) ∧
    (exitStatus (mainGo ["x"] (some "/r") (some .nilE) 10) = 2 ∧
     mainGo [] none (some .nilE) 10 = .returnedEarly ∧
     exitStatus (mainGo [] none (some .nilE) 10) = 0 ∧
     exitStatus (mainGo [] (some "/r") (some .nilE) 10) = 0 ∧
     exitStatus (mainGo [] (some "/r") (some .nilE) 10) =
       exitStatus (mainGo [] (some "/r") (some (.badDirE "d" .nilE)) 10)) :=
  ⟨by decide, C6_exit_codes ["x"] "/r" (some .nilE)
    (some (.badDirE "d" .nilE)) 10 (by decide)⟩

/-! ## User-stats aggregator (users.go) -/

/-- users.go:12 `NULL_USER_ID = ^uint32(0)`. -/
def NULL_USER_ID : Nat := 4294967295

/-- users.go:16-21 `UserStats`. -/
structure UserStats where
  uid : Nat
  size : Nat
  filecount : Nat
  dircount : Nat
deriving Repr, DecidableEq

/-- users.go:23-28 `clear`: adopt the uid, zero the counters. -/
def UserStats.clear (uid : Nat) : UserStats :=
  { uid := uid, size := 0, filecount := 0, dircount := 0 }

/-- users.go:78-81: the per-field additive merge performed when the key is
already present. -/
def mergeStats (e u : UserStats) : UserStats :=
  { uid := e.uid, size := addU64 e.size u.size,
    filecount := addU64 e.filecount u.filecount,
    dircount := addU64 e.dircount u.dircount }

/-- users.go:72-84: the `Compute` closure of `loadUserInfo` — merge the
flushed slot into the shared uid map additively, inserting when absent.
The concurrent `xsync` map is modelled as an association list. -/
def mapCompute : List UserStats → UserStats → List UserStats
  | [], u => [u]
  | e :: rest, u =>
    if e.uid = u.uid then mergeStats e u :: rest
    else e :: mapCompute rest u

/-- users.go:65-87 `loadUserInfo`: a NULL slot is skipped, anything else is
merged. -/
def loadUserInfo (m : List UserStats) (u : UserStats) : List UserStats :=
  if u.uid = NULL_USER_ID then m else mapCompute m u

/-- Task-local aggregation state: the thread-local slot, the shared map,
and the global `switchUserCount`. -/
structure UState where
  slot : UserStats
  userMap : List UserStats
  switchUserCount : Nat
deriving Repr, DecidableEq

/-- users.go:30-37 `switchUser`: count the switch when the old slot is not
NULL, flush the old slot, then clear to the new uid. Note the triggering
call's own payload is not accumulated anywhere. -/
def switchUser (st : UState) (uid : Nat) : UState :=
  { slot := UserStats.clear uid,
    userMap := loadUserInfo st.userMap st.slot,
    switchUserCount :=
      if st.slot.uid ≠ NULL_USER_ID then addU64 st.switchUserCount 1
      else st.switchUserCount }

/-- users.go:50-61 `addFile`: adopt the uid if the slot is NULL; same uid
accumulates locally; a different uid switches (losing this file's size and
count). -/
def addFile (st : UState) (uid : Nat) (size : Nat) : UState :=
  let st1 :=
    if st.slot.uid = NULL_USER_ID then
      { st with slot := { st.slot with uid := uid } }
    else st
  if uid = st1.slot.uid then
    { st1 with slot := { st1.slot with
        filecount := addU64 st1.slot.filecount 1,
        size := addU64 st1.slot.size size } }
  else switchUser st1 uid

/-- users.go:39-48 `addDir`. -/
def addDir (st : UState) (uid : Nat) : UState :=
  let st1 :=
    if st.slot.uid = NULL_USER_ID then
      { st with slot := { st.slot with uid := uid } }
    else st
  if uid = st1.slot.uid then
    { st1 with slot := { st1.slot with
        dircount := addU64 st1.slot.dircount 1 } }
  else switchUser st1 uid

/-- The per-entry calls a traversal task feeds its thread-local slot. -/
inductive UEvent where
  | file (uid : Nat) (size : Nat)
  | dir (uid : Nat)
deriving Repr, DecidableEq

def euid : UEvent → Nat
  | .file uid _ => uid
  | .dir uid => uid

def applyEvent (st : UState) : UEvent → UState
  | .file uid size => addFile st uid size
  | .dir uid => addDir st uid

/-- Modelled from the spec: the src walkGo never invokes the user
aggregator, so the call sites are taken from the spec — §4.2 step 3
forwards `(uid, size)` to `addFile` per regular file and `addDir` per
directory entry, and §4.4 flushes the thread-local slot unconditionally on
task exit. `runTask` runs one task's calls from a fresh NULL slot against
the shared map and flushes at the end. -/
def runTask (m0 : List UserStats) (c0 : Nat) (evs : List UEvent) : UState :=
  let final := evs.foldl applyEvent
    { slot := UserStats.clear NULL_USER_ID, userMap := m0, switchUserCount := c0 }
  { final with userMap := loadUserInfo final.userMap final.slot }

/-- Sum of one field over the user map (the `Σ` of the claim). -/
def sumBy (f : UserStats → Nat) (a : Nat) (m : List UserStats) : Nat :=
  m.foldl (fun a e => addU64 a (f e)) a

/-- Total size over a task's events (the scan's `totalSize` contribution). -/
def evSizeFrom (a : Nat) (evs : List UEvent) : Nat :=
  evs.foldl (fun a e => match e with
    | .file _ s => addU64 a s
    | .dir _ => a) a

/-- File count over a task's events (`countFiles` contribution). -/
def evFilesFrom (a : Nat) (evs : List UEvent) : Nat :=
  evs.foldl (fun a e => match e with
    | .file _ _ => addU64 a 1
    | .dir _ => a) a

/-- Directory count over a task's events (`countDirs` contribution). -/
def evDirsFrom (a : Nat) (evs : List UEvent) : Nat :=
  evs.foldl (fun a e => match e with
    | .file _ _ => a
    | .dir _ => addU64 a 1) a

/-! ### Sum lemmas for the user map -/

theorem sumBy_shift (f : UserStats → Nat) :
    ∀ (m : List UserStats) (a b : Nat),
      sumBy f (addU64 a b) m = addU64 (sumBy f a m) b := by
  intro m
  induction m with
  | nil => intro a b; rfl
  | cons e rest ih =>
    intro a b
    show sumBy f (addU64 (addU64 a b) (f e)) rest =
      addU64 (sumBy f (addU64 a (f e)) rest) b
    rw [addU64_right_comm]
    exact ih _ _

theorem sumBy_lt (f : UserStats → Nat) :
    ∀ (m : List UserStats) (a : Nat), a < U64MOD → sumBy f a m < U64MOD := by
  intro m
  induction m with
  | nil => intro a ha; exact ha
  | cons e rest ih => intro a ha; exact ih _ (addU64_lt _ _)

theorem sumBy_mapCompute (f : UserStats → Nat)
    (hf : ∀ e u, f (mergeStats e u) = addU64 (f e) (f u)) :
    ∀ (m : List UserStats) (a : Nat) (u : UserStats),
      sumBy f a (mapCompute m u) = addU64 (sumBy f a m) (f u) := by
  intro m
  induction m with
  | nil => intro a u; rfl
  | cons e rest ih =>
    intro a u
    unfold mapCompute
    split
    · show sumBy f (addU64 a (f (mergeStats e u))) rest =
        addU64 (sumBy f (addU64 a (f e)) rest) (f u)
      rw [hf, ← addU64_assoc]
      exact sumBy_shift f rest _ _
    · exact ih _ u

theorem sumBy_loadUserInfo (f : UserStats → Nat)
    (hf : ∀ e u, f (mergeStats e u) = addU64 (f e) (f u))
    (m : List UserStats) (u : UserStats) (hne : u.uid ≠ NULL_USER_ID) :
    sumBy f 0 (loadUserInfo m u) = addU64 (sumBy f 0 m) (f u) := by
  unfold loadUserInfo
  rw [if_neg hne]
  exact sumBy_mapCompute f hf m 0 u

/-! ### Single-owner tasks accumulate without losing anything -/

theorem addFile_same {st : UState} {uid : Nat} (h1 : st.slot.uid ≠ NULL_USER_ID)
    (h2 : uid = st.slot.uid) (s : Nat) :
    addFile st uid s = { st with slot := { st.slot with
      filecount := addU64 st.slot.filecount 1,
      size := addU64 st.slot.size s } } := by
  unfold addFile
  simp only [if_neg h1, if_pos h2]

theorem addDir_same {st : UState} {uid : Nat} (h1 : st.slot.uid ≠ NULL_USER_ID)
    (h2 : uid = st.slot.uid) :
    addDir st uid = { st with slot := { st.slot with
      dircount := addU64 st.slot.dircount 1 } } := by
  unfold addDir
  simp only [if_neg h1, if_pos h2]

/-- Processing a uid-homogeneous event list from a slot that already owns
that uid touches neither the shared map nor the switch counter, and the
slot accumulates every event. -/
theorem foldl_applyEvent_same (u : Nat) (hu : u ≠ NULL_USER_ID) :
    ∀ (evs : List UEvent), (∀ e ∈ evs, euid e = u) →
      ∀ st : UState, st.slot.uid = u →
      evs.foldl applyEvent st =
        { st with slot := { st.slot with
            size := evSizeFrom st.slot.size evs,
            filecount := evFilesFrom st.slot.filecount evs,
            dircount := evDirsFrom st.slot.dircount evs } } := by
  intro evs
  induction evs with
  | nil =>
    intro _ st _
    rfl
  | cons e rest ih =>
    intro hevs st hst
    have hue : euid e = u := hevs e (List.mem_cons_self e rest)
    have hrest : ∀ e ∈ rest, euid e = u :=
      fun e he => hevs e (List.mem_cons_of_mem _ he)
    cases e with
    | file uid s =>
      have huid : uid = st.slot.uid := by rw [hst]; exact hue
      rw [List.foldl_cons,
        show applyEvent st (.file uid s) = addFile st uid s from rfl,
        addFile_same (by rw [hst]; exact hu) huid,
        ih hrest _ (by exact hst)]
      rfl
    | dir uid =>
      have huid : uid = st.slot.uid := by rw [hst]; exact hue
      rw [List.foldl_cons,
        show applyEvent st (.dir uid) = addDir st uid from rfl,
        addDir_same (by rw [hst]; exact hu) huid,
        ih hrest _ (by exact hst)]
      rfl

theorem addFile_adopt {st : UState} (h1 : st.slot.uid = NULL_USER_ID)
    (uid s : Nat) :
    addFile st uid s = { st with slot := { st.slot with
      uid := uid,
      filecount := addU64 st.slot.filecount 1,
      size := addU64 st.slot.size s } } := by
  unfold addFile
  simp [h1]

theorem addDir_adopt {st : UState} (h1 : st.slot.uid = NULL_USER_ID)
    (uid : Nat) :
    addDir st uid = { st with slot := { st.slot with
      uid := uid,
      dircount := addU64 st.slot.dircount 1 } } := by
  unfold addDir
  simp [h1]

/-- Flushing a slot still at the NULL sentinel leaves the map unchanged
(users.go:47-49 guard). -/
theorem loadUserInfo_skip (m : List UserStats) {u : UserStats}
    (h : u.uid = NULL_USER_ID) : loadUserInfo m u = m := by
  unfold loadUserInfo
  rw [if_pos h]

/-- A task with no calls leaves the map and the switch counter untouched:
the final flush hits the NULL guard. -/
theorem runTask_nil_eq (m0 : List UserStats) (c0 : Nat) :
    (runTask m0 c0 []).userMap = m0 ∧
      (runTask m0 c0 []).switchUserCount = c0 := by
  refine ⟨?_, rfl⟩
  show loadUserInfo m0 (UserStats.clear NULL_USER_ID) = m0
  exact loadUserInfo_skip m0 rfl

/-! ## Claim C4 -/

/-- C4 counterexample: a task that reports a 5-byte file of uid 1 and then
a 7-byte file of uid 2 ends with the user map summing to 5 bytes and 1
file, while the scan counted 12 bytes and 2 files: `switchUser` flushes
the old slot and clears to the new uid without ever accumulating the
triggering call's payload, so every uid switch loses one file. -/
theorem C4_switch_drops_payload :
    sumBy UserStats.size 0 (runTask [] 0 [.file 1 5, .file 2 7]).userMap = 5 ∧
    evSizeFrom 0 [.file 1 5, .file 2 7] = 12 ∧
    sumBy UserStats.filecount 0
      (runTask [] 0 [.file 1 5, .file 2 7]).userMap = 1 ∧
    evFilesFrom 0 [.file 1 5, .file 2 7] = 2 ∧
    sumBy UserStats.size 0 (runTask [] 0 [.file 1 5, .file 2 7]).userMap ≠
      evSizeFrom 0 [.file 1 5, .file 2 7] := by
  decide

/-- C4 (amended): when every call a task makes carries one owner uid (no
uid switch happens), the per-field sums of the user map grow by exactly
the task's totals — size, file count and directory count — and the switch
counter is untouched; completeness over the whole scan follows task by
task. In general each uid switch drops exactly the switching call's
payload (see the counterexample). -/
theorem C4_single_owner_complete (m0 : List UserStats) (c0 : Nat)
    (evs : List UEvent) (u : Nat) (hu : u ≠ NULL_USER_ID)
    (hevs : ∀ e ∈ evs, euid e = u) :
    sumBy UserStats.size 0 (runTask m0 c0 evs).userMap =
      addU64 (sumBy UserStats.size 0 m0) (evSizeFrom 0 evs) ∧
    sumBy UserStats.filecount 0 (runTask m0 c0 evs).userMap =
      addU64 (sumBy UserStats.filecount 0 m0) (evFilesFrom 0 evs) ∧
    sumBy UserStats.dircount 0 (runTask m0 c0 evs).userMap =
      addU64 (sumBy UserStats.dircount 0 m0) (evDirsFrom 0 evs) ∧
    (runTask m0 c0 evs).switchUserCount = c0 := by
  cases evs with
  | nil =>
    have hz : ∀ f : UserStats → Nat,
        sumBy f 0 m0 = addU64 (sumBy f 0 m0) 0 := by
      intro f
      unfold addU64
      rw [Nat.add_zero, Nat.mod_eq_of_lt (sumBy_lt f m0 0 (by decide))]
    rw [(runTask_nil_eq m0 c0).1]
    exact ⟨hz _, hz _, hz _, (runTask_nil_eq m0 c0).2⟩
  | cons e rest =>
    have hue : euid e = u := hevs e (List.mem_cons_self e rest)
    have hrest : ∀ x ∈ rest, euid x = u :=
      fun x hx => hevs x (List.mem_cons_of_mem _ hx)
    cases e with
    | file uid s =>
      have huid : uid = u := hue
      have hneu : uid ≠ NULL_USER_ID := by rw [huid]; exact hu
      have hrun : runTask m0 c0 (.file uid s :: rest) =
          { slot := { uid := uid,
                      size := evSizeFrom (addU64 0 s) rest,
                      filecount := evFilesFrom (addU64 0 1) rest,
                      dircount := evDirsFrom 0 rest },
            userMap := loadUserInfo m0
              { uid := uid,
                size := evSizeFrom (addU64 0 s) rest,
                filecount := evFilesFrom (addU64 0 1) rest,
                dircount := evDirsFrom 0 rest },
            switchUserCount := c0 } := by
        unfold runTask
        rw [List.foldl_cons,
          show applyEvent { slot := UserStats.clear NULL_USER_ID,
                            userMap := m0,
                            switchUserCount := c0 } (.file uid s) =
            addFile { slot := UserStats.clear NULL_USER_ID,
                      userMap := m0,
                      switchUserCount := c0 } uid s from rfl,
          addFile_adopt rfl uid s,
          foldl_applyEvent_same u hu rest hrest _ huid]
        rfl
      rw [hrun]
      refine ⟨?_, ?_, ?_, rfl⟩
      · rw [sumBy_loadUserInfo UserStats.size (fun e u => rfl) m0 _ hneu]
        exact rfl
      · rw [sumBy_loadUserInfo UserStats.filecount (fun e u => rfl) m0 _ hneu]
        exact rfl
      · rw [sumBy_loadUserInfo UserStats.dircount (fun e u => rfl) m0 _ hneu]
        exact rfl
    | dir uid =>
      have huid : uid = u := hue
      have hneu : uid ≠ NULL_USER_ID := by rw [huid]; exact hu
      have hrun : runTask m0 c0 (.dir uid :: rest) =
          { slot := { uid := uid,
                      size := evSizeFrom 0 rest,
                      filecount := evFilesFrom 0 rest,
                      dircount := evDirsFrom (addU64 0 1) rest },
            userMap := loadUserInfo m0
              { uid := uid,
                size := evSizeFrom 0 rest,
                filecount := evFilesFrom 0 rest,
                dircount := evDirsFrom (addU64 0 1) rest },
            switchUserCount := c0 } := by
        unfold runTask
        rw [List.foldl_cons,
          show applyEvent { slot := UserStats.clear NULL_USER_ID,
                            userMap := m0,
                            switchUserCount := c0 } (.dir uid) =
            addDir { slot := UserStats.clear NULL_USER_ID,
                     userMap := m0,
                     switchUserCount := c0 } uid from rfl,
          addDir_adopt rfl uid,
          foldl_applyEvent_same u hu rest hrest _ huid]
        rfl
      rw [hrun]
      refine ⟨?_, ?_, ?_, rfl⟩
      · rw [sumBy_loadUserInfo UserStats.size (fun e u => rfl) m0 _ hneu]
        exact rfl
      · rw [sumBy_loadUserInfo UserStats.filecount (fun e u => rfl) m0 _ hneu]
        exact rfl
      · rw [sumBy_loadUserInfo UserStats.dircount (fun e u => rfl) m0 _ hneu]
        exact rfl

theorem C4_single_owner_complete_witness :
    (7 : Nat) ≠ NULL_USER_ID ∧
    (∀ e ∈ [UEvent.file 7 5, UEvent.dir 7], euid e = 7) ∧
    (sumBy UserStats.size 0
        (runTask [] 0 [UEvent.file 7 5, UEvent.dir 7]).userMap =
      addU64 (sumBy UserStats.size 0 [])
        (evSizeFrom 0 [UEvent.file 7 5, UEvent.dir 7]) ∧
     sumBy UserStats.filecount 0
        (runTask [] 0 [UEvent.file 7 5, UEvent.dir 7]).userMap =
      addU64 (sumBy UserStats.filecount 0 [])
        (evFilesFrom 0 [UEvent.file 7 5, UEvent.dir 7]) ∧
     sumBy UserStats.dircount 0
        (runTask [] 0 [UEvent.file 7 5, UEvent.dir 7]).userMap =
      addU64 (sumBy UserStats.dircount 0 [])
        (evDirsFrom 0 [UEvent.file 7 5, UEvent.dir 7]) ∧
     (runTask [] 0 [UEvent.file 7 5, UEvent.dir 7]).switchUserCount = 0) :=
  ⟨by decide, by decide,
    C4_single_owner_complete [] 0 [UEvent.file 7 5, UEvent.dir 7] 7
      (by decide) (by decide)⟩

/-! ## CSV dump (util.go:183-231) -/

/-- Two's-complement wrap-around of Go `int64` arithmetic (overflow is
silent in Go): the representative of `x` in `[-2^63, 2^63)`. -/
def wrapI64 (x : Int) : Int :=
  (x + 9223372036854775808) % 18446744073709551616 - 9223372036854775808

/-- util.go:183-194 `time2duration` in nanoseconds: sentinel extrema and
future modtimes yield the maximal duration, otherwise the whole seconds of
`now - filemod` scaled to nanoseconds; both the `int64` subtraction
`delta_t := now_t - filemod` and the `time.Duration(delta_t) * time.Second`
multiplication wrap in int64. -/
def time2duration (filemod : Int) (now : Int) : Int :=
  if filemod = maxI64 ∨ filemod = minI64 then maxI64
  else if now < filemod then maxI64
  else wrapI64 (wrapI64 (now - filemod) * 1000000000)

/-- Values already in int64 range are untouched by the wrap. -/
theorem wrapI64_eq_self {x : Int} (hlo : -9223372036854775808 ≤ x)
    (hhi : x < 9223372036854775808) : wrapI64 x = x := by
  unfold wrapI64
  omega

/-- An age cell under `-F`: `NA` for the sentinel extrema, otherwise the
numeric value handed to `%.3f` — modelled as the exact rational
`Hours()/24` (the 3-decimal rounding of the float formatter stays outside
the model). -/
inductive AgeCell where
  | na
  | days (value : ℚ)
deriving DecidableEq, Repr

/-- util.go:200-208 `mod2TimestampStr`: the `-F` age rendering. -/
def mod2TimestampStr (filemod : Int) (now : Int) : AgeCell :=
  if filemod = maxI64 ∨ filemod = minI64 then .na
  else .days (((time2duration filemod now : Int) : ℚ) / 3600000000000 / 24)

/-- util.go:211-215: the header row of the CSV dump, printed once at depth
0 and textually identical for both `-F` settings; the source labels the
last age column `imm_oldest` (util.go:214) although its values come from
`rec_new_file`. -/
def treeWalkDetailsHeader (_flatUnits : Bool) : List String :=
  ["path", "imm_size", "imm_files", "imm_dirs", "rec_size", "rec_files",
   "rec_dirs", "imm_oldest", "imm_newest", "rec_oldest", "imm_oldest",
   "depth"]

/-- One `-F` data row (util.go:222-226): raw integers, age cells from the
four modtime fields in source order. -/
structure CsvRowF where
  path : String
  imm_size : Nat
  imm_files : Nat
  imm_dirs : Nat
  rec_size : Nat
  rec_files : Nat
  rec_dirs : Nat
  imm_oldest : AgeCell
  imm_newest : AgeCell
  rec_oldest : AgeCell
  rec_newest : AgeCell
  depth : Nat
deriving DecidableEq, Repr

def mkRowF (d : DirInfo) (depth : Nat) (now : Int) : CsvRowF :=
  { path := d.stats.name,
    imm_size := d.stats.imm_size, imm_files := d.stats.imm_files,
    imm_dirs := d.stats.imm_dirs, rec_size := d.stats.rec_size,
    rec_files := d.stats.rec_files, rec_dirs := d.stats.rec_dirs,
    imm_oldest := mod2TimestampStr d.stats.imm_old_file now,
    imm_newest := mod2TimestampStr d.stats.imm_new_file now,
    rec_oldest := mod2TimestampStr d.stats.rec_old_file now,
    rec_newest := mod2TimestampStr d.stats.rec_new_file now,
    depth := depth }

/-- util.go:210-231 `treeWalkDetails` under `-F`: emit this node's row,
then recurse into the children in listing order. -/
def treeWalkDetailsRows : DirInfo → Nat → Int → List CsvRowF
  | .mk s kids, depth, now =>
    mkRowF (.mk s kids) depth now ::
      (kids.attach.map fun c =>
        treeWalkDetailsRows c.1 (depth + 1) now).flatten
decreasing_by
  have := List.sizeOf_lt_of_mem c.2
  rw [DirInfo.mk.sizeOf_spec]
  omega

/-- Depth pre-order of the tree's nodes with their depths, defined
independently of the row emission. -/
def preorderNodes : DirInfo → Nat → List (DirInfo × Nat)
  | .mk s kids, depth =>
    (.mk s kids, depth) ::
      (kids.attach.map fun c => preorderNodes c.1 (depth + 1)).flatten
decreasing_by
  have := List.sizeOf_lt_of_mem c.2
  rw [DirInfo.mk.sizeOf_spec]
  omega

/-- The emitted rows are exactly the pre-order nodes, one row each. -/
theorem treeWalkDetailsRows_eq_preorder (now : Int) (d : DirInfo) :
    ∀ depth : Nat, treeWalkDetailsRows d depth now =
      (preorderNodes d depth).map (fun p => mkRowF p.1 p.2 now) := by
  induction d using DirInfo.inductionOn with
  | h s kids ihk =>
    intro depth
    rw [treeWalkDetailsRows, preorderNodes]
    simp only [List.map_cons]
    congr 1
    rw [List.map_flatten, List.map_map]
    congr 1
    apply List.map_congr_left
    intro c hc
    exact ihk c.1 c.2 (depth + 1)

/-! ## Claim C7 -/

/-- C7 counterexample: the header `-D` actually prints matches neither the
claimed `-F` header (no `_days` suffixes are ever added) nor the claimed
plain header (the last age column reads `imm_oldest`, not `rec_newest`,
in util.go:214). -/
theorem C7_header_counterexample :
    treeWalkDetailsHeader true ≠
      ["path", "imm_size", "imm_files", "imm_dirs", "rec_size", "rec_files",
       "rec_dirs", "imm_oldest_days", "imm_newest_days", "rec_oldest_days",
       "rec_newest_days", "depth"] ∧
    treeWalkDetailsHeader false ≠
      ["path", "imm_size", "imm_files", "imm_dirs", "rec_size", "rec_files",
       "rec_dirs", "imm_oldest", "imm_newest", "rec_oldest", "rec_newest",
       "depth"] := by
  decide

/-- C7 (amended): the CSV dump emits one header row whose columns are
path, imm_size, imm_files, imm_dirs, rec_size, rec_files, rec_dirs,
imm_oldest, imm_newest, rec_oldest, imm_oldest, depth — the last age
column is mislabelled (its values come from `rec_new_file`) — and the
header is identical with and without `-F` (no `_days` suffixes). One row
follows per directory in depth pre-order, and under `-F` an age value is
exactly `(now − modtime)/86400` fractional days whenever `now − modtime`
fits in an int64 of nanoseconds (at most 9223372036 seconds, about 292
years — beyond that Go's duration arithmetic overflows and the program
prints a wrapped value), with `NA` at the two sentinel extrema. -/
theorem C7_csv_dump (flat flat2 : Bool) (d : DirInfo) (depth : Nat)
    (now t : Int) (h1 : minI64 < t) (h2 : t < maxI64) (h3 : t ≤ now)
    (h4 : now - t ≤ 9223372036) :
    treeWalkDetailsHeader flat =
      ["path", "imm_size", "imm_files", "imm_dirs", "rec_size", "rec_files",
       "rec_dirs", "imm_oldest", "imm_newest", "rec_oldest", "imm_oldest",
       "depth"] ∧
    treeWalkDetailsHeader flat = treeWalkDetailsHeader flat2 ∧
    treeWalkDetailsRows d depth now =
      (preorderNodes d depth).map (fun p => mkRowF p.1 p.2 now) ∧
    mod2TimestampStr t now = .days (((now - t : Int) : ℚ) / 86400) ∧
    mod2TimestampStr maxI64 now = .na ∧
    mod2TimestampStr minI64 now = .na := by
  refine ⟨rfl, rfl, treeWalkDetailsRows_eq_preorder now d depth, ?_, ?_, ?_⟩
  · unfold mod2TimestampStr time2duration
    rw [if_neg (by rintro (h | h) <;> omega),
      if_neg (by rintro (h | h) <;> omega),
      if_neg (by omega)]
    have hi : wrapI64 (now - t) = now - t :=
      wrapI64_eq_self (by omega) (by omega)
    rw [hi]
    have ho : wrapI64 ((now - t) * 1000000000) = (now - t) * 1000000000 :=
      wrapI64_eq_self (by omega) (by omega)
    rw [ho]
    congr 1
    push_cast
    field_simp
    ring
  · unfold mod2TimestampStr
    rw [if_pos (Or.inl rfl)]
  · unfold mod2TimestampStr
    rw [if_pos (Or.inr rfl)]

theorem C7_csv_dump_witness :
    minI64 < (100 : Int) ∧ (100 : Int) < maxI64 ∧ (100 : Int) ≤ 200 ∧
    (200 : Int) - 100 ≤ 9223372036 ∧
    (treeWalkDetailsHeader true =
      ["path", "imm_size", "imm_files", "imm_dirs", "rec_size", "rec_files",
       "rec_dirs", "imm_oldest", "imm_newest", "rec_oldest", "imm_oldest",
       "depth"] ∧
     treeWalkDetailsHeader true = treeWalkDetailsHeader false ∧
     treeWalkDetailsRows (NewDirInfo "/r") 0 200 =
      (preorderNodes (NewDirInfo "/r") 0).map (fun p => mkRowF p.1 p.2 200) ∧
     mod2TimestampStr 100 200 = .days (((200 - 100 : Int) : ℚ) / 86400) ∧
     mod2TimestampStr maxI64 200 = .na ∧
     mod2TimestampStr minI64 200 = .na) :=
  ⟨by decide, by decide, by decide, by decide,
    C7_csv_dump true false (NewDirInfo "/r") 0 200 100 (by decide) (by decide)
      (by decide) (by decide)⟩
